/-
  Verification of the telegram_backup archiver (src/telegram_backup.py)
  against its natural-language specification.

  The development is a shallow embedding: the relevant Python functions are
  translated to executable Lean definitions (SQLite tables become lists of
  records, the external client becomes an explicit environment of oracles,
  per-message processing becomes pure state-passing functions), and the
  spec's claims are proved or refuted about those definitions.
-/
import Mathlib

namespace TgBackup

/-! ## Decimal digits (models Python str(n) for natural numbers) -/

/-- The character for a single decimal digit `d % 10`. -/
def digitChar (d : Nat) : Char := Char.ofNat (48 + d % 10)

/-- Fuel-driven digit expansion (the fuel strictly bounds the value, so
it never runs out). -/
def natDigitsAux : Nat → Nat → List Char
  | 0, _ => []
  | fuel + 1, n =>
    if n < 10 then [digitChar n]
    else natDigitsAux fuel (n / 10) ++ [digitChar (n % 10)]

/-- Decimal digit characters of `n`, most significant first; models `str(n)`. -/
def natDigits (n : Nat) : List Char := natDigitsAux (n + 1) n

/-- `str(n)` for a natural number. -/
def natStr (n : Nat) : String := String.mk (natDigits n)

/-- Numeric value of a list of decimal digit characters (leftmost most
significant); inverse of `natDigits` on its image. -/
def parseNatChars (cs : List Char) : Nat :=
  cs.foldl (fun a c => a * 10 + (c.toNat - 48)) 0

/-! ## `extract_user_id` (source lines 108-127)

The Python function probes the input with `re.search` for the patterns
`user_id=(\d+)`, `channel_id=(\d+)` and `chat_id=(\d+)` in that order,
falls back to the raw string when it is purely numeric, and returns `None`
otherwise (including for a falsy, i.e. empty, input). `re.search` finds
the leftmost position where the literal prefix is followed by at least one
digit and captures the maximal digit run there. -/

/-- Attempt a match of `pat` followed by one-or-more digits at the head of
`s`; on success return the (greedy) captured digit run. Models one
position probe of `re.search(pat + digits, ...)`. -/
def captureAfter (pat s : List Char) : Option (List Char) :=
  if pat.isPrefixOf s then
    if ((s.drop pat.length).takeWhile Char.isDigit).isEmpty then none
    else some ((s.drop pat.length).takeWhile Char.isDigit)
  else none

/-- Leftmost-position search for `pat` followed by a digit run; models
`re.search(pat + r"(\d+)", s)` returning the captured group. -/
def searchCapture (pat : List Char) : List Char → Option (List Char)
  | [] => none
  | c :: rest =>
    match captureAfter pat (c :: rest) with
    | some ds => some ds
    | none => searchCapture pat rest

/-- Source `extract_user_id`: probes `user_id=`, then `channel_id=`, then
`chat_id=` patterns, falls back to the raw string when purely numeric,
else `none`; a falsy (empty) input yields `none` immediately. -/
def extract_user_id (s : String) : Option String :=
  if s.isEmpty then none
  else
    let cs := s.toList
    match searchCapture "user_id=".toList cs with
    | some ds => some (String.mk ds)
    | none =>
      match searchCapture "channel_id=".toList cs with
      | some ds => some (String.mk ds)
      | none =>
        match searchCapture "chat_id=".toList cs with
        | some ds => some (String.mk ds)
        | none =>
          -- `from_id_str.isdigit()`: nonempty and all digits; nonemptiness
          -- is already guaranteed by the falsy check above.
          if cs.all Char.isDigit then some s else none

/-! Spec-side reformulation of the same contract, written from the spec's
words: "returns the first numeric id found by probing, in order, a user-id
pattern, a channel-id pattern, a chat-id pattern, finally falling back to
the raw string if purely numeric; returns none if no id is recoverable."
"First" is formalised as the least index at which the pattern (followed by
a digit) occurs. -/

/-- Does `pat` followed by at least one digit occur at index `i` of `cs`? -/
def matchesAt (pat cs : List Char) (i : Nat) : Bool :=
  pat.isPrefixOf (cs.drop i) &&
    !((cs.drop (i + pat.length)).takeWhile Char.isDigit).isEmpty

/-- The capture at the least matching index, if any. -/
def specSearchCapture (pat cs : List Char) : Option (List Char) :=
  match (List.range cs.length).find? (matchesAt pat cs) with
  | some i => some ((cs.drop (i + pat.length)).takeWhile Char.isDigit)
  | none => none

/-- `extract_user_id` as the spec words it. -/
def extractUserIdSpec (s : String) : Option String :=
  if s.isEmpty then none
  else
    let cs := s.toList
    match specSearchCapture "user_id=".toList cs with
    | some ds => some (String.mk ds)
    | none =>
      match specSearchCapture "channel_id=".toList cs with
      | some ds => some (String.mk ds)
      | none =>
        match specSearchCapture "chat_id=".toList cs with
        | some ds => some (String.mk ds)
        | none =>
          if cs.all Char.isDigit then some s else none

/-! ## Data model

Raw Telethon messages, the external-client environment, and the four
SQLite tables (`messages`, `buttons`, `replies`, `reactions`) modelled as
lists of records. -/

/-- Python truthiness for an optional string: `None` and `""` are falsy. -/
def pyTruthy (o : Option String) : Option String :=
  match o with
  | some s => if s.isEmpty then none else some s
  | none => none

/-- `", ".join`-style concatenation. -/
def joinSep (sep : String) : List String → String
  | [] => ""
  | [s] => s
  | s :: rest => s ++ sep ++ joinSep sep rest

/-- An entity as returned by `client.get_entity`: a user (with optional
first/last name) or a titled entity (channel/chat). `none` results model a
raised exception. -/
inductive EntityInfo where
  | userE (firstName lastName : Option String)
  | channelE (title : String)

/-- `message.sender`: a user sender carries `first_name`/`last_name`
attributes, a channel sender carries `title`. -/
inductive Sender where
  | user (firstName lastName : Option String)
  | channel (title : String)

/-- `message.action`, keyed by the action dict's `"_"` discriminator.
Optional fields model `action_dict.get(...)` lookups. -/
inductive MsgAction where
  | chatAddUser (users : List Nat)
  | chatDeleteUser (userId : Option Nat)
  | chatJoinedByLink
  | channelCreate (title : Option String)
  | chatCreate (title : Option String)
  | groupCall (duration : Option Nat)
  | chatEditTitle (title : Option String)
  | otherAction (kind : String)

/-- One attribute of a document media (`DocumentAttributeAudio` etc.). -/
structure DocAttr where
  kind : String
  voice : Bool

/-- The `webpage` payload of a `MessageMediaWebPage`. -/
structure Webpage where
  title : Option String
  description : Option String
  url : Option String
  siteName : Option String
  photo : Bool

/-- The dedicated `message.web_preview` payload. -/
structure PreviewW where
  title : Option String
  description : Option String
  url : Option String
  siteName : Option String
  image : Option String

/-- `message.media`: discriminator string (the media dict's `"_"`), the
document attributes when it is a document, and the webpage payload when it
is a web page. -/
structure Media where
  kind : String
  attributes : List DocAttr
  webpage : Option Webpage

/-- `message.fwd_from`: its `str()` representation plus the attributes the
code reads from it. -/
structure FwdInfo where
  reprStr : String
  fromName : Option String
  channelId : Option Nat

/-- One native keyboard button (`button.text/.data/.url`). -/
structure NativeButton where
  text : String
  data : Option String
  url : Option String

/-- A reaction object as traversed by `get_emoji_string`: the constructors
mirror, in probe order, `emoticon`, `document_id`, `emoji`, a nested
`reaction` attribute, a plain string, any other object (whose `str()` is
stored), and an object whose attribute access raises. -/
inductive ReactObj where
  | emoticonR (s : String)
  | customR (docId : Nat)
  | emojiR (s : String)
  | wrappedR (inner : ReactObj)
  | strR (s : String)
  | otherR (reprStr : String)
  | badR

/-- One entry of `message.reactions.results`. -/
structure ReactionEntry where
  reaction : ReactObj
  count : Nat

/-- A raw message from the external stream, with exactly the attributes
the source reads. `fromId` is the `str()` form of `message.from_id`
(`none` models a `None` peer, stored as the string `"None"`); `reactions`
is `none` when `message.reactions` is `None`. -/
structure Msg where
  id : Nat
  dateIso : String
  text : Option String
  action : Option MsgAction
  media : Option Media
  pinned : Bool
  fwd : Option FwdInfo
  fromId : Option String
  views : Option Nat
  sender : Option Sender
  peerId : Option Nat
  replyToMsgId : Option Nat
  quoteText : Option String
  reactions : Option (List ReactionEntry)
  buttons : List (List NativeButton)
  webPreview : Option PreviewW

/-- The external world: entity lookups (`none` = raised exception), media
download results by message id (`none` = failure or `None` return), the
on-disk file set, content hashes, and the wall clock used for
`extraction_time`. -/
structure Env where
  getEntity : Nat → Option EntityInfo
  download : Nat → Option String
  fileExists : String → Bool
  fileHash : String → String
  nowIso : String

/-- A row of the `messages` table (primary key `(id, entity_id)`). -/
structure Rec where
  id : Nat
  entity_id : Nat
  date : String
  text : Option String
  media_type : Option String
  media_file : Option String
  media_hash : Option String
  forwarded : Option String
  from_id : String
  views : Nat
  sender_name : Option String
  reply_to_msg_id : Option Nat
  reactions : Option String
  web_preview : Option String
  extraction_time : String
  is_service_message : Bool
  is_voice_message : Bool
  is_pinned : Bool
  user_id : Option String
deriving DecidableEq

/-- A row of the `buttons` table (unique `(message_id, entity_id, row,
column)`). -/
structure BtnRec where
  message_id : Nat
  entity_id : Nat
  row : Nat
  col : Nat
  text : String
  data : Option String
  url : Option String
deriving DecidableEq

/-- A row of the `replies` table (unique `(message_id, entity_id)`). -/
structure ReplyRec where
  message_id : Nat
  entity_id : Nat
  reply_to_msg_id : Nat
  quote_text : Option String
deriving DecidableEq

/-- A row of the `reactions` table (unique `(message_id, entity_id,
emoji)`). -/
structure ReactRec where
  message_id : Nat
  entity_id : Nat
  emoji : String
  count : Nat
deriving DecidableEq

/-- The per-entity store: the four tables. -/
structure Store where
  messages : List Rec
  buttons : List BtnRec
  replies : List ReplyRec
  reactions : List ReactRec
deriving DecidableEq

def emptyStore : Store := ⟨[], [], [], []⟩

/-! ## Serialization helpers (model `json.dumps` on the payloads the code
serializes; minimal escaping, enough for the values the program builds) -/

def jsonEscape (s : String) : String :=
  String.mk (s.toList.flatMap fun c =>
    if c = '"' ∨ c = '\\' then ['\\', c] else [c])

def jsonOptStr : Option String → String
  | some s => "\"" ++ jsonEscape s ++ "\""
  | none => "null"

/-- `json.dumps` of the web-preview dict built by `get_web_preview_data`. -/
def jsonPreview (t d u sn i : Option String) : String :=
  "\x7b\"title\": " ++ jsonOptStr t ++ ", \"description\": " ++ jsonOptStr d ++
    ", \"url\": " ++ jsonOptStr u ++ ", \"site_name\": " ++ jsonOptStr sn ++
    ", \"image_url\": " ++ jsonOptStr i ++ "\x7d"

/-- `json.dumps` of the reactions summary list. -/
def jsonReactions (rs : List (String × Nat)) : String :=
  "[" ++ joinSep ", " (rs.map fun p =>
    "\x7b\"emoji\": \"" ++ jsonEscape p.1 ++ "\", \"count\": " ++ natStr p.2 ++ "\x7d") ++ "]"

/-! ## Normalizer sub-resolutions (source lines 388-416, 501-679) -/

/-- `get_emoji_string` (source lines 388-406): probes `emoticon`,
`document_id`, `emoji`, a nested `reaction` (recursing unless it is a
plain string), then plain strings, then `str(reaction)`; any raised error
degrades to `"Unknown"`. -/
def get_emoji_string : ReactObj → String
  | .emoticonR s => s
  | .customR docId => "CustomEmoji:" ++ natStr docId
  | .emojiR s => s
  | .wrappedR inner => get_emoji_string inner
  | .strR s => s
  | .otherR reprStr => reprStr
  | .badR => "Unknown"

/-- `get_channel_name_from_message` (source lines 408-416): resolve the
message's `peer_id` and return its `title` when present; any failure
yields `None`. -/
def get_channel_name_from_message (env : Env) (m : Msg) : Option String :=
  match m.peerId with
  | some p =>
    match env.getEntity p with
    | some (.channelE t) => some t
    | _ => none
  | none => none

/-- Resolution of one added/removed member's display name (source lines
508-520): first+last name when present, otherwise the `"User <id>"`
fallback, also used when the lookup raises. -/
def resolveUserName (env : Env) (uid : Nat) : String :=
  match env.getEntity uid with
  | some (.userE (some f) lastName) =>
    match pyTruthy lastName with
    | some l => f ++ " " ++ l
    | none => f
  | some (.userE none _) => "User " ++ natStr uid
  | some (.channelE _) => "User " ++ natStr uid
  | none => "User " ++ natStr uid

/-- The `MessageActionChatJoinedByLink` name resolution (source lines
538-547): the sender's first(+last) name; a sender without a usable
first name degrades to `"Someone"` via the bare `except`, except that a
user sender with neither name yields the literal string `"None"`
(`f"{None}"`). -/
def joinedByLinkName : Option Sender → String
  | some (.user (some f) lastName) =>
    match pyTruthy lastName with
    | some l => f ++ " " ++ l
    | none => f
  | some (.user none lastName) =>
    match pyTruthy lastName with
    | some _ => "Someone"   -- `None + str` raises TypeError, caught
    | none => "None"        -- `user_name` stays None and is formatted
  | some (.channel _) => "Someone"  -- no `first_name` attribute: AttributeError, caught
  | none => "Someone"

/-- The service text produced for each recognized action kind (source
lines 501-570). -/
def serviceText (env : Env) (m : Msg) : MsgAction → String
  | .chatAddUser users =>
    let names := users.map (resolveUserName env)
    "<service>" ++ joinSep ", " (names.filter (¬·.isEmpty)) ++ " joined the group</service>"
  | .chatDeleteUser userId =>
    let name :=
      match userId with
      | some uid => resolveUserName env uid
      | none => "User None"   -- get_entity(None) raises; f"User {None}"
    "<service>" ++ name ++ " left the group</service>"
  | .chatJoinedByLink =>
    "<service>" ++ joinedByLinkName m.sender ++ " joined the group via invite link</service>"
  | .channelCreate title =>
    "<service>Channel " ++ title.getD "this channel" ++ " created</service>"
  | .chatCreate title =>
    "<service>Group " ++ title.getD "this group" ++ " created</service>"
  | .groupCall duration =>
    match duration with
    | some d => if d ≠ 0 then "<service>Group call ended</service>"
                else "<service>Group call started</service>"
    | none => "<service>Group call started</service>"
  | .chatEditTitle title =>
    "<service>Group name changed to: " ++ title.getD "" ++ "</service>"
  | .otherAction kind =>
    "<service>Service message: " ++ kind ++ "</service>"

/-- `get_web_preview_data` (source lines 352-386). -/
def get_web_preview_data (m : Msg) : Option String :=
  match m.webPreview with
  | some w =>
    if w.title.isSome ∨ w.description.isSome ∨ w.url.isSome ∨ w.siteName.isSome ∨
        w.image.isSome then
      some (jsonPreview w.title w.description w.url w.siteName w.image)
    else none
  | none =>
    match m.media with
    | some md =>
      if md.kind = "MessageMediaWebPage" then
        match md.webpage with
        | some w =>
          let img := if w.photo then some "web_preview_photo" else none
          if w.title.isSome ∨ w.description.isSome ∨ w.url.isSome ∨ w.siteName.isSome ∨
              img.isSome then
            some (jsonPreview w.title w.description w.url w.siteName img)
          else none
        | none => none
      else none
    | none => none

/-- Sender display-name resolution (source lines 606-632): first+last
name, else sender `title`, else the owning channel via `peer_id`, else
the forward origin's recorded name or resolved channel, else `None`. -/
def resolveSenderName (env : Env) (m : Msg) : Option String :=
  let s1 : Option String :=
    match m.sender with
    | some (.user f lastName) =>
      match pyTruthy f with
      | some f' =>
        match pyTruthy lastName with
        | some l => some (f' ++ " " ++ l)
        | none => some f'
      | none => none
    | some (.channel t) => some t
    | none => none
  match pyTruthy s1 with
  | some n => some n
  | none =>
    match pyTruthy (get_channel_name_from_message env m) with
    | some cn => some cn
    | none =>
      match m.fwd with
      | some fw =>
        match pyTruthy fw.fromName with
        | some n => some n
        | none =>
          match fw.channelId with
          | some c =>
            if c ≠ 0 then
              match env.getEntity c with
              | some (.channelE t) => some (t ++ " (forwarded)")
              | _ => none
            else none
          | none => none
      | none => none

/-- Voice-message detection (source lines 577-582): the media is a
document one of whose attributes is an audio attribute flagged voice. -/
def isVoiceMessage (md : Media) : Bool :=
  md.kind == "MessageMediaDocument" &&
    md.attributes.any (fun a => a.kind == "DocumentAttributeAudio" && a.voice)

/-! ## Storage layer: key-based insert-or-ignore and media dedup -/

/-- `INSERT OR IGNORE INTO messages` (primary key `(id, entity_id)`). -/
def insertOrIgnoreMsg (tbl : List Rec) (r : Rec) : List Rec :=
  if tbl.any (fun q => q.id == r.id && q.entity_id == r.entity_id) then tbl
  else tbl ++ [r]

/-- `INSERT OR IGNORE INTO buttons` (unique `(message_id, entity_id, row,
column)`). -/
def insertOrIgnoreBtn (tbl : List BtnRec) (b : BtnRec) : List BtnRec :=
  if tbl.any (fun q => q.message_id == b.message_id && q.entity_id == b.entity_id &&
      q.row == b.row && q.col == b.col) then tbl
  else tbl ++ [b]

/-- `INSERT OR IGNORE INTO replies` (unique `(message_id, entity_id)`). -/
def insertOrIgnoreReply (tbl : List ReplyRec) (r : ReplyRec) : List ReplyRec :=
  if tbl.any (fun q => q.message_id == r.message_id && q.entity_id == r.entity_id) then tbl
  else tbl ++ [r]

/-- `INSERT OR REPLACE INTO replies` (used by the update pass): a
conflicting row is deleted and the new row appended. -/
def insertOrReplaceReply (tbl : List ReplyRec) (r : ReplyRec) : List ReplyRec :=
  (tbl.filter (fun q => ¬(q.message_id == r.message_id && q.entity_id == r.entity_id))) ++ [r]

/-- `INSERT OR IGNORE INTO reactions` (unique `(message_id, entity_id,
emoji)`). -/
def insertOrIgnoreReact (tbl : List ReactRec) (r : ReactRec) : List ReactRec :=
  if tbl.any (fun q => q.message_id == r.message_id && q.entity_id == r.entity_id &&
      q.emoji == r.emoji) then tbl
  else tbl ++ [r]

/-- `media_exists` (source lines 346-350): the first row with this
`(id, entity_id, media_type)` has a non-NULL `media_file` whose path still
exists on disk. -/
def media_exists (fileExists : String → Bool) (tbl : List Rec)
    (entity_id message_id : Nat) (media_type : String) : Bool :=
  match tbl.find? (fun r => r.id == message_id && r.entity_id == entity_id &&
      r.media_type == some media_type) with
  | some r =>
    match r.media_file with
    | some p => fileExists p
    | none => false
  | none => false

/-- `get_file_hash` (source lines 55-63): `None` for a missing file, else
the streamed md5 digest, modelled by the environment's hash oracle. -/
def get_file_hash (env : Env) (p : String) : Option String :=
  if env.fileExists p then some (env.fileHash p) else none

/-- The media branch of the backfill pass (source lines 584-599): when the
media is not yet recorded-and-on-disk, download and hash it; otherwise
reuse `media_file` and `media_hash` from the stored row with this
`(id, entity_id)`. -/
def mediaStep (env : Env) (tbl : List Rec) (entity_id : Nat) (m : Msg)
    (media_type : String) : Option String × Option String :=
  if ¬media_exists env.fileExists tbl entity_id m.id media_type then
    match env.download m.id with
    | some p => (some p, get_file_hash env p)
    | none => (none, none)
  else
    match tbl.find? (fun r => r.id == m.id && r.entity_id == entity_id) with
    | some r => (r.media_file, r.media_hash)
    | none => (none, none)

/-- The media branch of the update pass (source lines 878-887): same
download decision, but the reuse arm is absent — `media_file` and
`media_hash` simply stay `None`. -/
def mediaStepUpd (env : Env) (tbl : List Rec) (entity_id : Nat) (m : Msg)
    (media_type : String) : Option String × Option String :=
  if ¬media_exists env.fileExists tbl entity_id m.id media_type then
    match env.download m.id with
    | some p => (some p, get_file_hash env p)
    | none => (none, none)
  else (none, none)

/-! ## Hyperlink harvesting (source lines 675-679)

`BeautifulSoup(text, "html.parser")` followed by `find_all('a')`,
reading `link.text` and `link['href']`. Modelled as a character automaton
recognising simple `<a href="...">label</a>` anchors (no nested markup
inside the label, href present — the shapes the program's own data
contains). -/

structure Anchor where
  label : String
  href : String
deriving DecidableEq

/-- Scanner modes for the anchor automaton. -/
inductive AMode where
  | scanning
  | sawLt
  | sawLtA
  | inTag (k : Nat)
  | inUrl (url : List Char)
  | afterUrl (url : List Char)
  | inLabel (url lab : List Char)
  | labLt (url lab : List Char)
  | labLtSl (url lab : List Char)
  | labLtSlA (url lab : List Char)

def hrefPat : List Char := ['h', 'r', 'e', 'f', '=', '"']

def anchorStep (st : AMode × List Anchor) (c : Char) : AMode × List Anchor :=
  let (mode, acc) := st
  match mode with
  | .scanning => (if c = '<' then .sawLt else .scanning, acc)
  | .sawLt =>
    if c = 'a' then (.sawLtA, acc)
    else if c = '<' then (.sawLt, acc)
    else (.scanning, acc)
  | .sawLtA =>
    if c = ' ' then (.inTag 0, acc)
    else if c = '<' then (.sawLt, acc)
    else (.scanning, acc)
  | .inTag k =>
    if c = '>' then (.scanning, acc)    -- anchor without href: not harvested here
    else if some c = hrefPat.get? k then
      (if k + 1 = hrefPat.length then .inUrl [] else .inTag (k + 1), acc)
    else if some c = hrefPat.get? 0 then (.inTag 1, acc)
    else (.inTag 0, acc)
  | .inUrl url =>
    if c = '"' then (.afterUrl url, acc) else (.inUrl (url ++ [c]), acc)
  | .afterUrl url =>
    if c = '>' then (.inLabel url [], acc) else (.afterUrl url, acc)
  | .inLabel url lab =>
    if c = '<' then (.labLt url lab, acc) else (.inLabel url (lab ++ [c]), acc)
  | .labLt url lab =>
    if c = '/' then (.labLtSl url lab, acc)
    else if c = '<' then (.labLt url lab, acc)
    else (.inLabel url (lab ++ ['<', c]), acc)
  | .labLtSl url lab =>
    if c = 'a' then (.labLtSlA url lab, acc)
    else (.inLabel url (lab ++ ['<', '/', c]), acc)
  | .labLtSlA url lab =>
    if c = '>' then (.scanning, acc ++ [⟨String.mk lab, String.mk url⟩])
    else (.inLabel url (lab ++ ['<', '/', 'a', c]), acc)

/-- All anchors of a message text, in document order. -/
def extractAnchors (s : String) : List Anchor :=
  (s.toList.foldl anchorStep (.scanning, [])).2

/-- The button row for one harvested anchor: always row 0, column 0, the
anchor text as label, no payload, the href as url (source lines 677-679). -/
def anchorBtn (entity_id message_id : Nat) (a : Anchor) : BtnRec :=
  ⟨message_id, entity_id, 0, 0, a.label, none, some a.href⟩

/-- Native keyboard button rows of one message row `i` starting at column
`j` (inner `enumerate` of source lines 668-673). -/
def nativeRowRecs (entity_id message_id i : Nat) : Nat → List NativeButton → List BtnRec
  | _, [] => []
  | j, b :: bs =>
    ⟨message_id, entity_id, i, j, b.text, pyTruthy b.data, pyTruthy b.url⟩ ::
      nativeRowRecs entity_id message_id i (j + 1) bs

/-- Native keyboard button rows of a whole message starting at row `i`
(outer `enumerate` of source lines 668-673). -/
def nativeBtnRecs (entity_id message_id : Nat) : Nat → List (List NativeButton) → List BtnRec
  | _, [] => []
  | i, row :: rows =>
    nativeRowRecs entity_id message_id i 0 row ++
      nativeBtnRecs entity_id message_id (i + 1) rows

/-- The buttons-table update for one message (source lines 667-679):
native keyboard buttons first, then one insert attempt per harvested
anchor of a truthy non-service text. -/
def insertMsgButtons (entity_id message_id : Nat) (bss : List (List NativeButton))
    (text : Option String) (isService : Bool) (tbl : List BtnRec) : List BtnRec :=
  let t1 := (nativeBtnRecs entity_id message_id 0 bss).foldl insertOrIgnoreBtn tbl
  match pyTruthy text with
  | some t =>
    if ¬isService then
      ((extractAnchors t).map (anchorBtn entity_id message_id)).foldl insertOrIgnoreBtn t1
    else t1
  | none => t1

/-! ## Per-message normalization and commit (source lines 489-683, 780-971) -/

/-- Text override and service flag from the action classification
(source lines 493-570). -/
def classifyText (env : Env) (m : Msg) : Option String × Bool :=
  match m.action with
  | none => (m.text, false)
  | some a => (some (serviceText env m a), true)

/-- `reply_to_msg_id = message.reply_to_msg_id if message.reply_to_msg_id
else None` (truthiness: 0 becomes `None`). -/
def replyIdOf (m : Msg) : Option Nat :=
  match m.replyToMsgId with
  | some n => if n = 0 then none else some n
  | none => none

/-- The `(emoji, count)` pairs of the reactions loop (source lines
641-650). -/
def reactionPairs (m : Msg) : List (String × Nat) :=
  (m.reactions.getD []).map (fun e => (get_emoji_string e.reaction, e.count))

/-- The media columns: `(None, None)` without media or without the
download flag; otherwise the backfill media branch. -/
def mediaFields (env : Env) (dl : Bool) (tbl : List Rec) (entity_id : Nat)
    (m : Msg) : Option String × Option String :=
  match m.media with
  | none => (none, none)
  | some md => if dl then mediaStep env tbl entity_id m md.kind else (none, none)

/-- Same for the update pass (no reuse arm). -/
def mediaFieldsUpd (env : Env) (dl : Bool) (tbl : List Rec) (entity_id : Nat)
    (m : Msg) : Option String × Option String :=
  match m.media with
  | none => (none, none)
  | some md => if dl then mediaStepUpd env tbl entity_id m md.kind else (none, none)

/-- Assembly of the `messages` row from the computed pieces (the
`INSERT OR IGNORE INTO messages` tuple, source lines 652-661). -/
def normalizeCore (env : Env) (entity_id : Nat) (m : Msg) (text : Option String)
    (isService : Bool) (mediaPair : Option String × Option String) : Rec where
  id := m.id
  entity_id := entity_id
  date := m.dateIso
  text := text
  media_type := m.media.map (·.kind)
  media_file := mediaPair.1
  media_hash := mediaPair.2
  forwarded := m.fwd.map (·.reprStr)
  from_id := m.fromId.getD "None"
  views := m.views.getD 0
  sender_name := resolveSenderName env m
  reply_to_msg_id := replyIdOf m
  reactions := match m.reactions with
    | some _ => some (jsonReactions (reactionPairs m))
    | none => none
  web_preview := get_web_preview_data m
  extraction_time := env.nowIso
  is_service_message := isService
  is_voice_message := match m.media with
    | some md => isVoiceMessage md
    | none => false
  is_pinned := m.pinned
  user_id := extract_user_id (m.fromId.getD "None")

/-- One iteration of the backfill loop body (source lines 489-683):
normalize the message against the current store and commit its rows. -/
def commitMsg (env : Env) (dl : Bool) (entity_id : Nat) (st : Store) (m : Msg) : Store :=
  let tis := classifyText env m
  let mediaPair := mediaFields env dl st.messages entity_id m
  let r := normalizeCore env entity_id m tis.1 tis.2 mediaPair
  let reacts := (reactionPairs m).foldl
    (fun t p => insertOrIgnoreReact t ⟨m.id, entity_id, p.1, p.2⟩) st.reactions
  let msgs := insertOrIgnoreMsg st.messages r
  let reps :=
    match replyIdOf m with
    | some rid => insertOrIgnoreReply st.replies ⟨m.id, entity_id, rid, m.quoteText⟩
    | none => st.replies
  let btns := insertMsgButtons entity_id m.id m.buttons tis.1 tis.2 st.buttons
  ⟨msgs, btns, reps, reacts⟩

/-- One iteration of the update loop body (source lines 784-971): as the
backfill body, but media reuse is absent and replies use
`INSERT OR REPLACE`. -/
def commitMsgUpd (env : Env) (dl : Bool) (entity_id : Nat) (st : Store) (m : Msg) : Store :=
  let tis := classifyText env m
  let mediaPair := mediaFieldsUpd env dl st.messages entity_id m
  let r := normalizeCore env entity_id m tis.1 tis.2 mediaPair
  let reacts := (reactionPairs m).foldl
    (fun t p => insertOrIgnoreReact t ⟨m.id, entity_id, p.1, p.2⟩) st.reactions
  let msgs := insertOrIgnoreMsg st.messages r
  let reps :=
    match replyIdOf m with
    | some rid => insertOrReplaceReply st.replies ⟨m.id, entity_id, rid, m.quoteText⟩
    | none => st.replies
  let btns := insertMsgButtons entity_id m.id m.buttons tis.1 tis.2 st.buttons
  ⟨msgs, btns, reps, reacts⟩

/-! ## Sync controller (source lines 418-694, 696-979) -/

/-- One element of the external message stream: a delivered message, a
rate-limit signal (`FloodWaitError`), or an access denial
(`ChannelPrivateError`) raised by the iterator. -/
inductive Event where
  | msg (m : Msg)
  | floodWait (seconds : Nat)
  | channelPrivate

/-- How a backfill pass ends: stream exhausted; `FloodWaitError` caught —
the handler sleeps the signaled seconds and the pass ends (it does not
re-enter the loop); `ChannelPrivateError` caught — the pass ends. Neither
is escalated to the caller. -/
inductive BfOutcome where
  | completed
  | sleptThenStopped (seconds : Nat)
  | accessDeniedStopped
deriving DecidableEq

/-- The backfill message loop (source lines 489-692): every delivered
message is committed; the first stream-level signal ends the pass. -/
def process_entity_pass (env : Env) (dl : Bool) (entity_id : Nat) (st : Store) :
    List Event → Store × BfOutcome
  | [] => (st, .completed)
  | .msg m :: rest => process_entity_pass env dl entity_id (commitMsg env dl entity_id st m) rest
  | .floodWait n :: _ => (st, .sleptThenStopped n)
  | .channelPrivate :: _ => (st, .accessDeniedStopped)

/-- How an update pass ends: stream exhausted or cursor reached; or any
exception — including `FloodWaitError` — caught by the generic
`except Exception` handler (source lines 974-975), which neither sleeps
nor resumes. -/
inductive UpdOutcome where
  | completed
  | errorCaught
deriving DecidableEq

/-- The update message loop (source lines 780-971): stop at the first id
at or below the cursor; otherwise commit and continue. -/
def update_entity_pass (env : Env) (dl : Bool) (entity_id cursor : Nat) (st : Store) :
    List Event → Store × UpdOutcome
  | [] => (st, .completed)
  | .msg m :: rest =>
    if m.id ≤ cursor then (st, .completed)
    else update_entity_pass env dl entity_id cursor (commitMsgUpd env dl entity_id st m) rest
  | .floodWait _ :: _ => (st, .errorCaught)
  | .channelPrivate :: _ => (st, .errorCaught)

/-- `SELECT MAX(id) FROM messages WHERE entity_id = ?`, with the `None`
result mapped to 0 (source lines 770-772). -/
def maxMsgId (tbl : List Rec) (entity_id : Nat) : Nat :=
  (tbl.filter (fun r => r.entity_id == entity_id)).foldl (fun a r => max a r.id) 0

/-! ## Schema migration (source lines 718-745) -/

/-- Which of the four late-added `messages` columns the pre-existing
table already has. -/
structure MsgSchema where
  hasService : Bool
  hasVoice : Bool
  hasPinned : Bool
  hasUserId : Bool

/-- One `UPDATE messages SET user_id = ? WHERE id = ? AND entity_id = ?`
for one fetched `(id, entity_id, from_id)` triple, guarded by the Python
truthiness of the extracted id (source lines 739-744). -/
def applyUserIdUpdate (tbl : List Rec) (t : Nat × Nat × String) : List Rec :=
  match extract_user_id t.2.2 with
  | some u =>
    if u.isEmpty then tbl
    else tbl.map (fun r =>
      if r.id == t.1 && r.entity_id == t.2.1 then { r with user_id := some u } else r)
  | none => tbl

/-- The `user_id` backfill loop: fetch all `(id, entity_id, from_id)`
triples once, then update row by row (source lines 737-744). -/
def backfillUserIds (tbl : List Rec) : List Rec :=
  (tbl.map (fun r => (r.id, r.entity_id, r.from_id))).foldl applyUserIdUpdate tbl

/-- The effect of one fetched triple's UPDATE statement on one row: set
`user_id` when the row's key matches the triple's and the extracted id is
truthy, else leave the row alone. -/
def applyOne (t : Nat × Nat × String) (r : Rec) : Rec :=
  match extract_user_id t.2.2 with
  | some u =>
    if u.isEmpty then r
    else if r.id == t.1 && r.entity_id == t.2.1 then { r with user_id := some u } else r
  | none => r

/-- The combined effect on one row of the column additions that precede
the `user_id` backfill (flag columns defaulted when absent, fresh
`user_id` column NULL). -/
def preMap (sch : MsgSchema) (r : Rec) : Rec :=
  { r with
    is_service_message := if sch.hasService then r.is_service_message else false
    is_voice_message := if sch.hasVoice then r.is_voice_message else false
    is_pinned := if sch.hasPinned then r.is_pinned else false
    user_id := none }

/-- The additive migration of the `messages` table on open of a
pre-existing store (source lines 721-745): each absent flag column is
added with default 0, and an absent `user_id` column is added (NULL) and
backfilled from `from_id`. -/
def migrateMessages (sch : MsgSchema) (tbl : List Rec) : List Rec :=
  let t1 := if sch.hasService then tbl
    else tbl.map (fun r => { r with is_service_message := false })
  let t2 := if sch.hasVoice then t1
    else t1.map (fun r => { r with is_voice_message := false })
  let t3 := if sch.hasPinned then t2
    else t2.map (fun r => { r with is_pinned := false })
  if sch.hasUserId then t3
  else backfillUserIds (t3.map (fun r => { r with user_id := none }))

/-! ## The update operation entry (source lines 696-979) -/

/-- What `update_entity` finds on disk: no store file at all, or a store
file whose `messages` table may be missing. When the `messages` table is
missing the store holds no message rows. -/
inductive DbState where
  | missing
  | present (hasMessagesTable : Bool) (schema : MsgSchema) (st : Store)

/-- How the update operation ran: fell back to a full backfill
(`process_entity`), or performed an incremental pass. -/
inductive UpdateResult where
  | backfilled (o : BfOutcome)
  | updated (o : UpdOutcome)
deriving DecidableEq

/-- `update_entity` (source lines 696-979): no db file → full backfill
from a fresh store; file without a `messages` table → full backfill (the
`CREATE TABLE IF NOT EXISTS` statements give an empty `messages` table);
otherwise migrate the schema, resolve the cursor as the maximum stored id,
and run the incremental pass. (The replies-table migration of lines
748-766 touches no table the claims are about.) -/
def update_entity_model (env : Env) (dl : Bool) (entity_id : Nat) (db : DbState)
    (evs : List Event) : Store × UpdateResult :=
  match db with
  | .missing =>
    let p := process_entity_pass env dl entity_id emptyStore evs
    (p.1, .backfilled p.2)
  | .present false _ st =>
    let p := process_entity_pass env dl entity_id { st with messages := [] } evs
    (p.1, .backfilled p.2)
  | .present true sch st =>
    let st1 : Store := { st with messages := migrateMessages sch st.messages }
    let cursor := maxMsgId st1.messages entity_id
    let p := update_entity_pass env dl entity_id cursor st1 evs
    (p.1, .updated p.2)

/-! ## Digest renderer: day grouping (source lines 1048-1077)

`generate_html` (entity case) iterates the rows — already ordered by
`ORDER BY m.date DESC` — and buckets them into an insertion-ordered dict
keyed by `datetime.fromisoformat(date).strftime("%B %d, %Y")`, falling
back to the prefix before `'T'` when parsing fails, and to
`"Unknown Date"` when the string is falsy or has no `'T'`. -/

/-- Whether `y` is a Gregorian leap year. -/
def isLeapYear (y : Nat) : Bool :=
  (y % 4 == 0 && y % 100 != 0) || y % 400 == 0

/-- Number of days of month `m` (1-based) in year `y`. -/
def daysInMonth (y m : Nat) : Nat :=
  if m = 2 then (if isLeapYear y then 29 else 28)
  else if m = 4 ∨ m = 6 ∨ m = 9 ∨ m = 11 then 30
  else 31

/-- Numeric value of a fixed run of digit characters, `none` when some
character is not a digit. -/
def digitsVal (cs : List Char) : Option Nat :=
  if cs.all Char.isDigit then some (parseNatChars cs) else none

/-- Does the tail after the date part look like an ISO time
(`hh:mm:ss` followed by anything, e.g. fraction and offset)? Models the
time-part validation of `datetime.fromisoformat` for the strings this
program stores. -/
def timeTailOk (cs : List Char) : Bool :=
  match cs with
  | h1 :: h2 :: ':' :: m1 :: m2 :: ':' :: s1 :: s2 :: _ =>
    [h1, h2, m1, m2, s1, s2].all Char.isDigit &&
      parseNatChars [h1, h2] < 24 && parseNatChars [m1, m2] < 60 &&
      parseNatChars [s1, s2] < 60
  | _ => false

/-- `datetime.fromisoformat` restricted to extracting the calendar day:
expects `YYYY-MM-DD` then `'T'` and a valid time tail, validates the
month and day ranges, and returns `(year, month, day)`; `none` models
the raised `ValueError`. -/
def fromIsoChars (cs : List Char) : Option (Nat × Nat × Nat) :=
  match cs with
  | y1 :: y2 :: y3 :: y4 :: '-' :: mo1 :: mo2 :: '-' :: d1 :: d2 :: 'T' :: rest =>
    match digitsVal [y1, y2, y3, y4], digitsVal [mo1, mo2], digitsVal [d1, d2] with
    | some y, some mo, some d =>
      if 1 ≤ mo ∧ mo ≤ 12 ∧ 1 ≤ d ∧ d ≤ daysInMonth y mo ∧ timeTailOk rest then
        some (y, mo, d)
      else none
    | _, _, _ => none
  | _ => none

/-- The English month names used by `strftime("%B ...")`. -/
def monthNameL (m : Nat) : List Char :=
  (["January".toList, "February".toList, "March".toList, "April".toList,
    "May".toList, "June".toList, "July".toList, "August".toList,
    "September".toList, "October".toList, "November".toList,
    "December".toList].getD (m - 1) [])

/-- Zero-padded two-digit day, as `strftime("%d")` renders it. -/
def pad2 (d : Nat) : List Char :=
  if d < 10 then ['0', digitChar d] else natDigits d

/-- `msg_date.strftime("%B %d, %Y")` as a character list. -/
def formatDayChars (y mo d : Nat) : List Char :=
  monthNameL mo ++ ' ' :: (pad2 d ++ ',' :: ' ' :: natDigits y)

/-- The day-group key of one stored date string (source lines 1059-1070;
the inner `else` arm of the `except` handler is unreachable because the
handler only runs when `'T' in date_str`). -/
def dayKey (dateStr : String) : String :=
  if ¬dateStr.isEmpty ∧ dateStr.toList.contains 'T' then
    match fromIsoChars dateStr.toList with
    | some t => String.mk (formatDayChars t.1 t.2.1 t.2.2)
    | none => String.mk (dateStr.toList.takeWhile (· ≠ 'T'))
  else "Unknown Date"

/-- Lexicographic order on character lists by codepoint — the order
SQLite's BINARY collation gives `ORDER BY m.date DESC` on the stored
UTF-8 date strings. -/
def lexLeChars : List Char → List Char → Bool
  | [], _ => true
  | _ :: _, [] => false
  | c :: cs, d :: ds =>
    if c.toNat < d.toNat then true
    else if c.toNat = d.toNat then lexLeChars cs ds
    else false

/-- `a ≤ b` on stored date strings under the store's collation. -/
def dateLe (a b : String) : Prop := lexLeChars a.toList b.toList = true

instance (a b : String) : Decidable (dateLe a b) :=
  inferInstanceAs (Decidable (lexLeChars a.toList b.toList = true))

/-- Append one record under its key in the insertion-ordered group list
(`date_groups[day_str].append(message)` with dict insertion order). -/
def addToGroups (gs : List (String × List Rec)) (k : String) (r : Rec) :
    List (String × List Rec) :=
  match gs with
  | [] => [(k, [r])]
  | (k', rs) :: rest =>
    if k' = k then (k', rs ++ [r]) :: rest
    else (k', rs) :: addToGroups rest k r

/-- The day grouping of the rendered rows (source lines 1048-1077). The
rewriting of `media_file` to a relative path (lines 1052-1057) touches no
field this grouping reads and is omitted. -/
def groupByDay (msgs : List Rec) : List (String × List Rec) :=
  msgs.foldl (fun gs r => addToGroups gs (dayKey r.date) r) []

/-- The row the update pass commits for a fresh message id (its key not
yet stored): media dedup finds no row, so the columns are computed
independently of the table. -/
def normalizeUpdFresh (env : Env) (dl : Bool) (entity_id : Nat) (m : Msg) : Rec :=
  normalizeCore env entity_id m (classifyText env m).1 (classifyText env m).2
    (mediaFieldsUpd env dl [] entity_id m)

/-! ## Concrete fixtures for witnesses and counterexamples -/

/-- An inert environment: every lookup fails, no file exists. -/
def env0 : Env where
  getEntity := fun _ => none
  download := fun _ => none
  fileExists := fun _ => false
  fileHash := fun _ => ""
  nowIso := "2026-02-01T00:00:00+00:00"

/-- A plain text message with a given id. -/
def plainMsg (i : Nat) : Msg where
  id := i
  dateIso := "2026-01-15T10:00:00+00:00"
  text := some "hello"
  action := none
  media := none
  pinned := false
  fwd := none
  fromId := some "PeerUser(user_id=7)"
  views := some 3
  sender := some (.user (some "Ann") none)
  peerId := none
  replyToMsgId := none
  quoteText := none
  reactions := none
  buttons := []
  webPreview := none

/-- A stored message row with a given id (entity 1). -/
def sampleRec (i : Nat) : Rec where
  id := i
  entity_id := 1
  date := "2026-01-10T09:00:00+00:00"
  text := some "old"
  media_type := none
  media_file := none
  media_hash := none
  forwarded := none
  from_id := "PeerUser(user_id=7)"
  views := 0
  sender_name := some "Ann"
  reply_to_msg_id := none
  reactions := none
  web_preview := none
  extraction_time := "2026-01-10T09:05:00+00:00"
  is_service_message := false
  is_voice_message := false
  is_pinned := false
  user_id := some "7"

/-- The unique key of a buttons-table row. -/
def btnKey (b : BtnRec) : Nat × Nat × Nat × Nat :=
  (b.message_id, b.entity_id, b.row, b.col)

/-- Does the native keyboard occupy coordinate `(0, 0)` — i.e. is there a
first row with a first button? -/
def hasZeroZero (bss : List (List NativeButton)) : Bool :=
  match bss with
  | [] => false
  | r :: _ => ¬r.isEmpty

/-- A stored row that recorded a downloaded photo. -/
def mediaRec : Rec :=
  { sampleRec 3 with
    media_type := some "MessageMediaPhoto"
    media_file := some "media/1/photo_3.jpg"
    media_hash := some "d41d8cd98f00b204e9800998ecf8427e" }

/-- An environment whose disk holds exactly the file of `mediaRec`. -/
def env1 : Env := { env0 with fileExists := fun p => p == "media/1/photo_3.jpg" }

/-- The messages delivered before the first stream-level signal — exactly
the loop iterations a pass executes. -/
def msgPrefix : List Event → List Msg
  | [] => []
  | .msg m :: rest => m :: msgPrefix rest
  | .floodWait _ :: _ => []
  | .channelPrivate :: _ => []

/-- Is a row with primary key `(i, e)` present in the messages table? -/
def keyIn (tbl : List Rec) (i e : Nat) : Bool :=
  tbl.any (fun q => q.id == i && q.entity_id == e)

/-- The primary keys of the messages table, in storage order. -/
def keysOf (tbl : List Rec) : List (Nat × Nat) :=
  tbl.map (fun r => (r.id, r.entity_id))

/-! # Theorems -/

/-! ## Digit and extract_user_id lemmas -/

theorem digitChar_toNat (d : Nat) : (digitChar d).toNat = 48 + d % 10 := by
  have h : d % 10 < 10 := Nat.mod_lt _ (by omega)
  unfold digitChar
  set k := d % 10 with hk
  interval_cases k <;> rfl

theorem parseNatChars_append_digit (cs : List Char) (c : Char) :
    parseNatChars (cs ++ [c]) = parseNatChars cs * 10 + (c.toNat - 48) := by
  unfold parseNatChars
  rw [List.foldl_append]
  rfl

theorem parseNatChars_natDigitsAux (fuel n : Nat) (hf : n < fuel) :
    parseNatChars (natDigitsAux fuel n) = n := by
  induction fuel generalizing n with
  | zero => omega
  | succ fuel ih =>
    unfold natDigitsAux
    by_cases h : n < 10
    · simp only [h, if_true]
      show parseNatChars ([] ++ [digitChar n]) = n
      rw [parseNatChars_append_digit, digitChar_toNat]
      simp [parseNatChars]
      omega
    · simp only [h, if_false]
      have hdiv : n / 10 < fuel := by
        have : n / 10 < n := Nat.div_lt_self (by omega) (by omega)
        omega
      rw [parseNatChars_append_digit, ih (n / 10) hdiv, digitChar_toNat]
      omega

theorem parseNatChars_natDigits (n : Nat) : parseNatChars (natDigits n) = n :=
  parseNatChars_natDigitsAux (n + 1) n (by omega)

theorem natDigits_inj {a b : Nat} (h : natDigits a = natDigits b) : a = b := by
  have := parseNatChars_natDigits a
  rw [h, parseNatChars_natDigits] at this
  omega

theorem matchesAt_succ (pat : List Char) (c : Char) (cs : List Char) (i : Nat) :
    matchesAt pat (c :: cs) (i + 1) = matchesAt pat cs i := by
  simp [matchesAt, List.drop_succ_cons, Nat.add_right_comm]

theorem matchesAt_zero (pat cs : List Char) :
    matchesAt pat cs 0 = ((captureAfter pat cs).isSome) := by
  unfold matchesAt captureAfter
  by_cases h : pat.isPrefixOf cs
  · simp only [h, if_true, List.drop_zero, Nat.zero_add, Bool.true_and]
    by_cases h2 : ((cs.drop pat.length).takeWhile Char.isDigit).isEmpty
    · simp [h2]
    · simp [h2]
  · simp [h]

theorem searchCapture_eq_spec (pat cs : List Char) :
    searchCapture pat cs = specSearchCapture pat cs := by
  induction cs with
  | nil => simp [searchCapture, specSearchCapture]
  | cons c rest ih =>
    unfold searchCapture specSearchCapture
    rw [List.length_cons, List.range_succ_eq_map, List.find?_cons]
    by_cases h0 : matchesAt pat (c :: rest) 0
    · rw [h0]
      rw [matchesAt_zero] at h0
      unfold captureAfter at h0 ⊢
      by_cases hp : pat.isPrefixOf (c :: rest)
      · simp only [hp, if_true] at h0 ⊢
        by_cases h2 : (((c :: rest).drop pat.length).takeWhile Char.isDigit).isEmpty
        · simp [h2] at h0
        · simp [h2, List.drop_zero, Nat.zero_add]
      · simp [hp] at h0
    · rw [Bool.not_eq_true] at h0
      rw [h0]
      have hcap : captureAfter pat (c :: rest) = none := by
        have := matchesAt_zero pat (c :: rest)
        rw [h0] at this
        cases hc : captureAfter pat (c :: rest) with
        | none => rfl
        | some ds => rw [hc] at this; simp at this
      rw [hcap]
      rw [ih]
      unfold specSearchCapture
      rw [List.find?_map]
      have hcomp : (matchesAt pat (c :: rest) ∘ (· + 1)) = matchesAt pat rest := by
        funext i
        simp [Function.comp, matchesAt_succ]
      rw [hcomp]
      cases hf : (List.range rest.length).find? (matchesAt pat rest) with
      | none => simp
      | some i =>
        simp only [Option.map_some', Nat.succ_eq_add_one]
        congr 1
        rw [show i + 1 + pat.length = (i + pat.length) + 1 from by omega,
          List.drop_succ_cons]

/-- `extract_user_id` never returns the empty string: every captured group
has at least one digit and the numeric fallback requires a nonempty input.
(Relevant because the migration code guards updates with Python truthiness.) -/
theorem captureAfter_ne_nil {pat s ds : List Char}
    (h : captureAfter pat s = some ds) : ds ≠ [] := by
  unfold captureAfter at h
  split at h
  · split at h
    · exact absurd h (by simp)
    · obtain rfl := Option.some.inj h
      intro hnil
      simp_all
  · exact absurd h (by simp)

theorem searchCapture_ne_nil {pat cs ds : List Char}
    (h : searchCapture pat cs = some ds) : ds ≠ [] := by
  induction cs with
  | nil => exact absurd h (by simp [searchCapture])
  | cons c rest ih =>
    unfold searchCapture at h
    cases hc : captureAfter pat (c :: rest) with
    | none => rw [hc] at h; exact ih h
    | some es =>
      rw [hc] at h
      obtain rfl := Option.some.inj h
      exact captureAfter_ne_nil hc

theorem extract_user_id_ne_empty (s : String) : extract_user_id s ≠ some "" := by
  have hmk : ∀ ds : List Char, ds ≠ [] → (String.mk ds : String) ≠ "" := by
    intro ds hds h
    apply hds
    simpa using congrArg String.data h
  unfold extract_user_id
  by_cases he : s.isEmpty
  · simp [he]
  · rw [if_neg he]
    dsimp only
    cases h1 : searchCapture "user_id=".toList s.toList with
    | some ds => simpa using hmk ds (searchCapture_ne_nil h1)
    | none =>
      cases h2 : searchCapture "channel_id=".toList s.toList with
      | some ds => simpa using hmk ds (searchCapture_ne_nil h2)
      | none =>
        cases h3 : searchCapture "chat_id=".toList s.toList with
        | some ds => simpa using hmk ds (searchCapture_ne_nil h3)
        | none =>
          by_cases hd : s.toList.all Char.isDigit
          · rw [if_pos hd]
            intro h
            apply he
            obtain rfl := Option.some.inj h
            rfl
          · rw [if_neg hd]
            simp

/-- C5: `extract_user_id` agrees everywhere with the spec's description:
first id by probing the user-id, channel-id, then chat-id patterns at the
leftmost matching position, then the purely-numeric fallback, else none;
empty input yields none. (It is a pure function of its input by
construction.) -/
theorem extract_user_id_correct (s : String) :
    extract_user_id s = extractUserIdSpec s := by
  unfold extract_user_id extractUserIdSpec
  simp only [searchCapture_eq_spec]

/-! ## Insert-or-ignore key lemmas -/

theorem keyIn_insertOrIgnoreMsg_self (tbl : List Rec) (r : Rec) :
    keyIn (insertOrIgnoreMsg tbl r) r.id r.entity_id = true := by
  unfold insertOrIgnoreMsg keyIn
  by_cases h : tbl.any (fun q => q.id == r.id && q.entity_id == r.entity_id)
  · rw [if_pos h]; exact h
  · simp [h]

theorem keyIn_insertOrIgnoreMsg_mono (tbl : List Rec) (r : Rec) (i e : Nat)
    (h : keyIn tbl i e = true) : keyIn (insertOrIgnoreMsg tbl r) i e = true := by
  unfold insertOrIgnoreMsg
  by_cases hc : tbl.any (fun q => q.id == r.id && q.entity_id == r.entity_id)
  · simpa [hc]
  · unfold keyIn at h ⊢
    rw [if_neg hc]
    simp [List.any_append, h]

theorem insertOrIgnoreMsg_noop (tbl : List Rec) (r : Rec)
    (h : keyIn tbl r.id r.entity_id = true) : insertOrIgnoreMsg tbl r = tbl := by
  unfold insertOrIgnoreMsg
  unfold keyIn at h
  simp [h]

/-! ## C2: backfill idempotence -/

theorem commitMsg_messages (env : Env) (dl : Bool) (eid : Nat) (st : Store) (m : Msg) :
    (commitMsg env dl eid st m).messages =
      insertOrIgnoreMsg st.messages
        (normalizeCore env eid m (classifyText env m).1 (classifyText env m).2
          (mediaFields env dl st.messages eid m)) := rfl

theorem normalizeCore_id (env : Env) (eid : Nat) (m : Msg) (t : Option String)
    (s : Bool) (p : Option String × Option String) :
    (normalizeCore env eid m t s p).id = m.id := rfl

theorem normalizeCore_entity (env : Env) (eid : Nat) (m : Msg) (t : Option String)
    (s : Bool) (p : Option String × Option String) :
    (normalizeCore env eid m t s p).entity_id = eid := rfl

/-- Keys present in the table survive a whole backfill pass. -/
theorem pass_keyIn_mono (env : Env) (dl : Bool) (eid : Nat) (evs : List Event)
    (st : Store) (i e : Nat) (h : keyIn st.messages i e = true) :
    keyIn (process_entity_pass env dl eid st evs).1.messages i e = true := by
  induction evs generalizing st with
  | nil => exact h
  | cons ev rest ih =>
    cases ev with
    | msg m =>
      exact ih (commitMsg env dl eid st m)
        (by rw [commitMsg_messages]; exact keyIn_insertOrIgnoreMsg_mono _ _ _ _ h)
    | floodWait n => exact h
    | channelPrivate => exact h

/-- After a backfill pass, every message the pass iterated over has its
key present in the messages table. -/
theorem pass_keys (env : Env) (dl : Bool) (eid : Nat) (evs : List Event) (st : Store) :
    ∀ m ∈ msgPrefix evs,
      keyIn (process_entity_pass env dl eid st evs).1.messages m.id eid = true := by
  induction evs generalizing st with
  | nil => intro m hm; simp [msgPrefix] at hm
  | cons ev rest ih =>
    cases ev with
    | msg m0 =>
      intro m hm
      rcases (by simpa [msgPrefix] using hm : m = m0 ∨ m ∈ msgPrefix rest) with rfl | hmem
      · exact pass_keyIn_mono env dl eid rest _ m.id eid
          (by rw [commitMsg_messages]
              have := keyIn_insertOrIgnoreMsg_self st.messages
                (normalizeCore env eid m (classifyText env m).1 (classifyText env m).2
                  (mediaFields env dl st.messages eid m))
              simpa using this)
      · exact ih (commitMsg env dl eid st m0) m hmem
    | floodWait n => intro m hm; simp [msgPrefix] at hm
    | channelPrivate => intro m hm; simp [msgPrefix] at hm

/-- A backfill pass over a stream whose iterated messages all already have
their keys stored leaves the messages table unchanged (first write wins). -/
theorem pass_messages_noop (env : Env) (dl : Bool) (eid : Nat) (evs : List Event)
    (st : Store) (h : ∀ m ∈ msgPrefix evs, keyIn st.messages m.id eid = true) :
    (process_entity_pass env dl eid st evs).1.messages = st.messages := by
  induction evs generalizing st with
  | nil => rfl
  | cons ev rest ih =>
    cases ev with
    | msg m0 =>
      have hm0 : keyIn st.messages m0.id eid = true := h m0 (by simp [msgPrefix])
      have hmsgs : (commitMsg env dl eid st m0).messages = st.messages := by
        rw [commitMsg_messages]
        exact insertOrIgnoreMsg_noop _ _ (by simpa using hm0)
      have := ih (commitMsg env dl eid st m0)
        (by intro m hm; rw [hmsgs]; exact h m (by simp [msgPrefix, hm]))
      show (process_entity_pass env dl eid (commitMsg env dl eid st m0) rest).1.messages
        = st.messages
      rw [this, hmsgs]
    | floodWait n => rfl
    | channelPrivate => rfl

/-- C2: backfill is idempotent on the `messages` table. Running the
backfill pass a second time over the identical stream — even under a
different environment (clock, filesystem, lookup results) or download
flag — produces exactly the `MessageRecord` list of the first run: every
key is already present, so `INSERT OR IGNORE` drops every row and no core
message field of an existing row is overwritten. -/
theorem backfill_idempotent (env env' : Env) (dl dl' : Bool) (eid : Nat)
    (st : Store) (evs : List Event) :
    (process_entity_pass env' dl' eid (process_entity_pass env dl eid st evs).1 evs).1.messages
      = (process_entity_pass env dl eid st evs).1.messages :=
  pass_messages_noop env' dl' eid evs _ (pass_keys env dl eid evs st)

/-! ## C10: update falls back to a full backfill when the store is absent
or lacks the messages table -/

/-- C10: invoking the update operation with no store file, or with a store
file lacking the `messages` table, does not fail: it performs exactly the
full backfill pass (over a fresh store, resp. over the store with its
`messages` table freshly created empty) and reports that it fell back. -/
theorem update_fallback_backfill (env : Env) (dl : Bool) (eid : Nat)
    (sch : MsgSchema) (st : Store) (evs : List Event) :
    (update_entity_model env dl eid .missing evs
      = ((process_entity_pass env dl eid emptyStore evs).1,
         .backfilled (process_entity_pass env dl eid emptyStore evs).2))
    ∧ (update_entity_model env dl eid (.present false sch st) evs
      = ((process_entity_pass env dl eid { st with messages := [] } evs).1,
         .backfilled (process_entity_pass env dl eid { st with messages := [] } evs).2)) :=
  ⟨rfl, rfl⟩

/-! ## C1: update-pass resume correctness -/

theorem keyIn_append_single (tbl : List Rec) (r : Rec) (i e : Nat) :
    keyIn (tbl ++ [r]) i e = (keyIn tbl i e || (r.id == i && r.entity_id == e)) := by
  simp [keyIn, List.any_append]

theorem media_exists_false_of_no_key (fe : String → Bool) (tbl : List Rec)
    (eid mid : Nat) (mt : String) (h : keyIn tbl mid eid = false) :
    media_exists fe tbl eid mid mt = false := by
  unfold media_exists
  have hfind : tbl.find? (fun r => r.id == mid && r.entity_id == eid &&
      r.media_type == some mt) = none := by
    rw [List.find?_eq_none]
    intro r hr hcontra
    have : keyIn tbl mid eid = true := by
      unfold keyIn
      rw [List.any_eq_true]
      exact ⟨r, hr, by
        simp only [Bool.and_eq_true] at hcontra
        simp [hcontra.1.1, hcontra.1.2]⟩
    rw [h] at this
    exact absurd this (by simp)
  rw [hfind]

theorem mediaFieldsUpd_of_no_key (env : Env) (dl : Bool) (tbl : List Rec)
    (eid : Nat) (m : Msg) (h : keyIn tbl m.id eid = false) :
    mediaFieldsUpd env dl tbl eid m = mediaFieldsUpd env dl [] eid m := by
  unfold mediaFieldsUpd
  cases m.media with
  | none => rfl
  | some md =>
    by_cases hdl : dl
    · simp only [hdl, if_true]
      unfold mediaStepUpd
      rw [media_exists_false_of_no_key env.fileExists tbl eid m.id md.kind h]
      rw [show media_exists env.fileExists [] eid m.id md.kind = false from rfl]
    · simp [hdl]

theorem commitMsgUpd_messages_fresh (env : Env) (dl : Bool) (eid : Nat)
    (st : Store) (m : Msg) (h : keyIn st.messages m.id eid = false) :
    (commitMsgUpd env dl eid st m).messages
      = st.messages ++ [normalizeUpdFresh env dl eid m] := by
  show insertOrIgnoreMsg st.messages
      (normalizeCore env eid m (classifyText env m).1 (classifyText env m).2
        (mediaFieldsUpd env dl st.messages eid m))
    = st.messages ++ [normalizeUpdFresh env dl eid m]
  rw [mediaFieldsUpd_of_no_key env dl st.messages eid m h]
  unfold insertOrIgnoreMsg
  rw [if_neg (by
    intro hc
    unfold keyIn at h
    rw [show (normalizeCore env eid m (classifyText env m).1 (classifyText env m).2
        (mediaFieldsUpd env dl [] eid m)).id = m.id from rfl,
      show (normalizeCore env eid m (classifyText env m).1 (classifyText env m).2
        (mediaFieldsUpd env dl [] eid m)).entity_id = eid from rfl] at hc
    rw [h] at hc
    exact absurd hc (by simp))]
  rfl

theorem foldl_max_init_le (l : List Rec) (a : Nat) :
    a ≤ l.foldl (fun acc r => max acc r.id) a := by
  induction l generalizing a with
  | nil => exact Nat.le_refl a
  | cons r rest ih => exact Nat.le_trans (Nat.le_max_left a r.id) (ih (max a r.id))

theorem foldl_max_mem_le (l : List Rec) (a : Nat) (r : Rec) (hr : r ∈ l) :
    r.id ≤ l.foldl (fun acc q => max acc q.id) a := by
  induction l generalizing a with
  | nil => cases hr
  | cons q rest ih =>
    rcases List.mem_cons.mp hr with rfl | hmem
    · exact Nat.le_trans (Nat.le_max_right a r.id) (foldl_max_init_le rest (max a r.id))
    · exact ih (max a q.id) hmem

/-- Every stored row of the entity has id at most the resume cursor. -/
theorem maxMsgId_bound (tbl : List Rec) (eid : Nat) (r : Rec) (hr : r ∈ tbl)
    (he : r.entity_id = eid) : r.id ≤ maxMsgId tbl eid := by
  unfold maxMsgId
  exact foldl_max_mem_le _ 0 r (List.mem_filter.mpr ⟨hr, by simp [he]⟩)

theorem keyIn_true_exists (tbl : List Rec) (i e : Nat) (h : keyIn tbl i e = true) :
    ∃ r ∈ tbl, r.id = i ∧ r.entity_id = e := by
  unfold keyIn at h
  rw [List.any_eq_true] at h
  obtain ⟨r, hr, hp⟩ := h
  simp only [Bool.and_eq_true, beq_iff_eq] at hp
  exact ⟨r, hr, hp.1, hp.2⟩

/-- The update loop over a strictly descending pure message stream: it
commits, in order, the normalization of exactly the messages whose id
exceeds the cursor, then stops, completing normally. -/
theorem update_pass_go (env : Env) (dl : Bool) (eid cursor : Nat) (msgs : List Msg) :
    ∀ st : Store, msgs.Pairwise (fun a b => b.id < a.id) →
    (∀ m ∈ msgs, cursor < m.id → keyIn st.messages m.id eid = false) →
    (update_entity_pass env dl eid cursor st (msgs.map .msg)).1.messages
        = st.messages ++ (msgs.filter (fun m => cursor < m.id)).map (normalizeUpdFresh env dl eid)
      ∧ (update_entity_pass env dl eid cursor st (msgs.map .msg)).2 = .completed := by
  induction msgs with
  | nil => intro st _ _; exact ⟨by simp [update_entity_pass], rfl⟩
  | cons m0 rest ih =>
    intro st hdesc hfresh
    rw [List.pairwise_cons] at hdesc
    by_cases hc : m0.id ≤ cursor
    · have hstop : (update_entity_pass env dl eid cursor st ((m0 :: rest).map .msg))
          = (st, .completed) := by
        show (if m0.id ≤ cursor then (st, UpdOutcome.completed) else _) = (st, .completed)
        rw [if_pos hc]
      have hfilter : (m0 :: rest).filter (fun m => cursor < m.id) = [] := by
        rw [List.filter_eq_nil_iff]
        intro m hm
        rcases List.mem_cons.mp hm with rfl | hmem
        · simp; omega
        · have := hdesc.1 m hmem
          simp
          omega
      rw [hstop, hfilter]
      exact ⟨by simp, rfl⟩
    · have hcur : cursor < m0.id := by omega
      have hkey0 : keyIn st.messages m0.id eid = false :=
        hfresh m0 (List.mem_cons_self m0 rest) hcur
      have hcommit := commitMsgUpd_messages_fresh env dl eid st m0 hkey0
      have hstep : update_entity_pass env dl eid cursor st ((m0 :: rest).map .msg)
          = update_entity_pass env dl eid cursor (commitMsgUpd env dl eid st m0)
              (rest.map .msg) := by
        show (if m0.id ≤ cursor then (st, UpdOutcome.completed) else _) = _
        rw [if_neg hc]
      have hfresh' : ∀ m ∈ rest, cursor < m.id →
          keyIn (commitMsgUpd env dl eid st m0).messages m.id eid = false := by
        intro m hm hcm
        rw [hcommit, keyIn_append_single, hfresh m (List.mem_cons_of_mem m0 hm) hcm]
        have hne : m.id ≠ m0.id := by
          have := hdesc.1 m hm
          omega
        have : ((normalizeUpdFresh env dl eid m0).id == m.id) = false := by
          rw [show (normalizeUpdFresh env dl eid m0).id = m0.id from rfl]
          simp [Ne.symm hne]
        simp [this]
      obtain ⟨ihm, iho⟩ := ih (commitMsgUpd env dl eid st m0) hdesc.2 hfresh'
      rw [hstep]
      refine ⟨?_, iho⟩
      rw [ihm, hcommit]
      have hfc : (m0 :: rest).filter (fun m => cursor < m.id)
          = m0 :: rest.filter (fun m => cursor < m.id) := by
        rw [List.filter_cons_of_pos (by simp [hcur])]
      rw [hfc, List.map_cons, List.append_assoc]
      rfl

/-- C1: resume correctness of the update pass. With the cursor resolved
as the maximum stored id `M` for the entity, an update pass over a
newest-first (strictly descending ids) message stream commits exactly the
normalizations of the messages with id above `M`, in stream order, and
stops at the first id at or below `M`, completing without error. -/
theorem update_resume_correct (env : Env) (dl : Bool) (eid : Nat) (st : Store)
    (msgs : List Msg) (hdesc : msgs.Pairwise (fun a b => b.id < a.id)) :
    (update_entity_pass env dl eid (maxMsgId st.messages eid) st (msgs.map .msg)).1.messages
        = st.messages ++ (msgs.filter (fun m => maxMsgId st.messages eid < m.id)).map
            (normalizeUpdFresh env dl eid)
      ∧ (update_entity_pass env dl eid (maxMsgId st.messages eid) st (msgs.map .msg)).2
        = .completed := by
  apply update_pass_go env dl eid (maxMsgId st.messages eid) msgs st hdesc
  intro m _ hcm
  cases hk : keyIn st.messages m.id eid with
  | false => rfl
  | true =>
    obtain ⟨r, hr, hid, he⟩ := keyIn_true_exists _ _ _ hk
    have := maxMsgId_bound st.messages eid r hr he
    omega

/-- Witness for C1 at the spec's own instance: store max id `M = 5`,
stream ids `{M-1, M, M+1, M+2}` newest-first; exactly messages 7 and 6
(= `{M+1, M+2}`) are committed. -/
theorem update_resume_correct_witness :
    ([plainMsg 7, plainMsg 6, plainMsg 5, plainMsg 4].Pairwise
        (fun a b : Msg => b.id < a.id))
    ∧ (update_entity_pass env0 false 1
          (maxMsgId (Store.mk [sampleRec 5] [] [] []).messages 1)
          (Store.mk [sampleRec 5] [] [] [])
          ([plainMsg 7, plainMsg 6, plainMsg 5, plainMsg 4].map .msg)).1.messages
      = [sampleRec 5] ++ [normalizeUpdFresh env0 false 1 (plainMsg 7),
          normalizeUpdFresh env0 false 1 (plainMsg 6)] :=
  ⟨by decide, (update_resume_correct env0 false 1 (Store.mk [sampleRec 5] [] [] [])
      [plainMsg 7, plainMsg 6, plainMsg 5, plainMsg 4] (by decide)).1⟩

/-! ## C3: media dedup decision and reuse -/

/-- Under unique primary keys, two stored rows with the same key are the
same row. -/
theorem key_unique (tbl : List Rec) (hnodup : (keysOf tbl).Nodup) :
    ∀ r ∈ tbl, ∀ r' ∈ tbl, r.id = r'.id → r.entity_id = r'.entity_id → r = r' := by
  induction tbl with
  | nil => intro r hr; cases hr
  | cons q rest ih =>
    have hnd : ((q.id, q.entity_id) ∉ keysOf rest) ∧ (keysOf rest).Nodup := by
      unfold keysOf at hnodup ⊢
      rw [List.map_cons, List.nodup_cons] at hnodup
      exact hnodup
    intro r hr r' hr' hid he
    rcases List.mem_cons.mp hr with heq | hmem
    · rcases List.mem_cons.mp hr' with heq' | hmem'
      · rw [heq, heq']
      · exfalso
        apply hnd.1
        have hmm : (r'.id, r'.entity_id) ∈ keysOf rest :=
          List.mem_map_of_mem (fun x => (x.id, x.entity_id)) hmem'
        rw [← hid, ← he, heq] at hmm
        exact hmm
    · rcases List.mem_cons.mp hr' with heq' | hmem'
      · exfalso
        apply hnd.1
        have hmm : (r.id, r.entity_id) ∈ keysOf rest :=
          List.mem_map_of_mem (fun x => (x.id, x.entity_id)) hmem
        rw [hid, he, heq'] at hmm
        exact hmm
      · exact ih hnd.2 r hmem r' hmem' hid he

/-- C3: the media-dedup decision and reuse. Under the `(id, entity_id)`
primary-key uniqueness of the messages table: (1) `media_exists` — the
"do not fetch" decision — holds iff a stored row for exactly the key
`(entity_id, message_id, media_type)` has a non-null media path that
still exists on disk; (2) in that case the media step returns the stored
row's `media_file` and `media_hash` unchanged (reuse, no recomputation);
(3) otherwise the media step downloads and hashes afresh. -/
theorem media_dedup_correct (fe : String → Bool) (tbl : List Rec)
    (eid mid : Nat) (mt : String) (hnodup : (keysOf tbl).Nodup) :
    (media_exists fe tbl eid mid mt = true ↔
      ∃ r ∈ tbl, r.id = mid ∧ r.entity_id = eid ∧ r.media_type = some mt ∧
        ∃ p, r.media_file = some p ∧ fe p = true)
    ∧ (∀ (env : Env) (m : Msg), env.fileExists = fe → m.id = mid →
        media_exists fe tbl eid mid mt = true →
        ∀ r ∈ tbl, r.id = mid → r.entity_id = eid →
          mediaStep env tbl eid m mt = (r.media_file, r.media_hash))
    ∧ (∀ (env : Env) (m : Msg), env.fileExists = fe → m.id = mid →
        media_exists fe tbl eid mid mt = false →
          mediaStep env tbl eid m mt =
            (match env.download m.id with
             | some p => (some p, get_file_hash env p)
             | none => (none, none))) := by
  refine ⟨?_, ?_, ?_⟩
  · unfold media_exists
    constructor
    · intro h
      cases hf : tbl.find? (fun r => r.id == mid && r.entity_id == eid &&
          r.media_type == some mt) with
      | none => rw [hf] at h; exact absurd h (by simp)
      | some r =>
        rw [hf] at h
        dsimp only at h
        have hmem := List.mem_of_find?_eq_some hf
        have hpred := List.find?_some hf
        simp only [Bool.and_eq_true, beq_iff_eq] at hpred
        cases hmf : r.media_file with
        | none => rw [hmf] at h; exact absurd h (by simp)
        | some p =>
          rw [hmf] at h
          dsimp only at h
          exact ⟨r, hmem, hpred.1.1, hpred.1.2, hpred.2, p, hmf, h⟩
    · rintro ⟨r, hmem, hid, he, hmt, p, hmf, hfe⟩
      cases hf : tbl.find? (fun q => q.id == mid && q.entity_id == eid &&
          q.media_type == some mt) with
      | none =>
        rw [List.find?_eq_none] at hf
        exact absurd (by simp [hid, he, hmt] : (fun q => q.id == mid && q.entity_id == eid &&
          q.media_type == some mt) r = true) (by simpa using hf r hmem)
      | some r' =>
        have hmem' := List.mem_of_find?_eq_some hf
        have hpred' := List.find?_some hf
        simp only [Bool.and_eq_true, beq_iff_eq] at hpred'
        have hrr : r' = r := key_unique tbl hnodup r' hmem' r hmem
          (by rw [hpred'.1.1, hid]) (by rw [hpred'.1.2, he])
        rw [hrr]
        dsimp only
        rw [hmf]
        exact hfe
  · intro env m hfe hid hex r hmem hrid hre
    unfold mediaStep
    rw [hfe, hid, hex]
    rw [if_neg (by simp)]
    cases hf : tbl.find? (fun q => q.id == mid && q.entity_id == eid) with
    | none =>
      rw [List.find?_eq_none] at hf
      exact absurd (by simp [hrid, hre] : (fun q => q.id == mid &&
        q.entity_id == eid) r = true) (by simpa using hf r hmem)
    | some r' =>
      have hmem' := List.mem_of_find?_eq_some hf
      have hpred' := List.find?_some hf
      simp only [Bool.and_eq_true, beq_iff_eq] at hpred'
      have hrr : r' = r := key_unique tbl hnodup r' hmem' r hmem
        (by rw [hpred'.1, hrid]) (by rw [hpred'.2, hre])
      rw [hrr]
  · intro env m hfe hid hex
    unfold mediaStep
    rw [hfe, hid, hex]
    simp

/-- Witness for C3: a one-row store whose recorded photo file is on disk
(decision false = do-not-fetch, path and hash reused), plus the fetch
branch when the file is absent. -/
theorem media_dedup_correct_witness :
    ((keysOf [mediaRec]).Nodup)
    ∧ ((media_exists env1.fileExists [mediaRec] 1 3 "MessageMediaPhoto" = true ↔
        ∃ r ∈ [mediaRec], r.id = 3 ∧ r.entity_id = 1 ∧
          r.media_type = some "MessageMediaPhoto" ∧
          ∃ p, r.media_file = some p ∧ env1.fileExists p = true)
      ∧ (∀ (env : Env) (m : Msg), env.fileExists = env1.fileExists → m.id = 3 →
          media_exists env1.fileExists [mediaRec] 1 3 "MessageMediaPhoto" = true →
          ∀ r ∈ [mediaRec], r.id = 3 → r.entity_id = 1 →
            mediaStep env [mediaRec] 1 m "MessageMediaPhoto" = (r.media_file, r.media_hash))
      ∧ (∀ (env : Env) (m : Msg), env.fileExists = env1.fileExists → m.id = 3 →
          media_exists env1.fileExists [mediaRec] 1 3 "MessageMediaPhoto" = false →
            mediaStep env [mediaRec] 1 m "MessageMediaPhoto" =
              (match env.download m.id with
               | some p => (some p, get_file_hash env p)
               | none => (none, none)))) :=
  ⟨by decide,
   media_dedup_correct env1.fileExists [mediaRec] 1 3 "MessageMediaPhoto" (by decide)⟩

/-! ## C8: hyperlink harvesting emits buttons at a constant (0,0)
coordinate, not an incrementing column -/

theorem btn_any_iff (tbl : List BtnRec) (b : BtnRec) :
    (tbl.any (fun q => q.message_id == b.message_id && q.entity_id == b.entity_id &&
      q.row == b.row && q.col == b.col) = true) ↔ ∃ q ∈ tbl, btnKey q = btnKey b := by
  rw [List.any_eq_true]
  constructor
  · rintro ⟨q, hq, hp⟩
    simp only [Bool.and_eq_true, beq_iff_eq] at hp
    exact ⟨q, hq, by simp [btnKey, Prod.ext_iff, hp.1.1.1, hp.1.1.2, hp.1.2, hp.2]⟩
  · rintro ⟨q, hq, hk⟩
    simp only [btnKey, Prod.ext_iff] at hk
    exact ⟨q, hq, by simp [hk.1, hk.2.1, hk.2.2.1, hk.2.2.2]⟩

theorem insertBtn_ignored {tbl : List BtnRec} {b : BtnRec}
    (h : ∃ q ∈ tbl, btnKey q = btnKey b) : insertOrIgnoreBtn tbl b = tbl := by
  unfold insertOrIgnoreBtn
  rw [if_pos ((btn_any_iff tbl b).mpr h)]

theorem insertBtn_appended {tbl : List BtnRec} {b : BtnRec}
    (h : ¬∃ q ∈ tbl, btnKey q = btnKey b) : insertOrIgnoreBtn tbl b = tbl ++ [b] := by
  unfold insertOrIgnoreBtn
  rw [if_neg (fun hc => h ((btn_any_iff tbl b).mp hc))]

theorem foldl_insertBtn_all_new (recs : List BtnRec) : ∀ tbl : List BtnRec,
    (∀ r ∈ recs, ¬∃ q ∈ tbl, btnKey q = btnKey r) →
    recs.Pairwise (fun a b => btnKey a ≠ btnKey b) →
    recs.foldl insertOrIgnoreBtn tbl = tbl ++ recs := by
  induction recs with
  | nil => intro tbl _ _; simp
  | cons r rest ih =>
    intro tbl hnew hpw
    rw [List.pairwise_cons] at hpw
    have h1 : insertOrIgnoreBtn tbl r = tbl ++ [r] :=
      insertBtn_appended (hnew r (List.mem_cons_self r rest))
    have h2 : rest.foldl insertOrIgnoreBtn (tbl ++ [r]) = (tbl ++ [r]) ++ rest := by
      apply ih (tbl ++ [r]) ?_ hpw.2
      intro x hx ⟨q, hq, hk⟩
      rcases List.mem_append.mp hq with hq' | hq'
      · exact hnew x (List.mem_cons_of_mem r hx) ⟨q, hq', hk⟩
      · rw [List.mem_singleton.mp hq'] at hk
        exact hpw.1 x hx hk
    show rest.foldl insertOrIgnoreBtn (insertOrIgnoreBtn tbl r) = tbl ++ r :: rest
    rw [h1, h2, List.append_assoc]
    rfl

theorem nativeRowRecs_mem (eid mid i : Nat) (bs : List NativeButton) : ∀ j : Nat,
    ∀ b ∈ nativeRowRecs eid mid i j bs,
      b.message_id = mid ∧ b.entity_id = eid ∧ b.row = i ∧ j ≤ b.col := by
  induction bs with
  | nil => intro j b hb; cases hb
  | cons x rest ih =>
    intro j b hb
    rcases List.mem_cons.mp hb with rfl | hmem
    · exact ⟨rfl, rfl, rfl, Nat.le_refl j⟩
    · obtain ⟨h1, h2, h3, h4⟩ := ih (j + 1) b hmem
      exact ⟨h1, h2, h3, by omega⟩

theorem nativeBtnRecs_mem (eid mid : Nat) (bss : List (List NativeButton)) : ∀ i : Nat,
    ∀ b ∈ nativeBtnRecs eid mid i bss,
      b.message_id = mid ∧ b.entity_id = eid ∧ i ≤ b.row := by
  induction bss with
  | nil => intro i b hb; cases hb
  | cons r rows ih =>
    intro i b hb
    rcases List.mem_append.mp hb with hmem | hmem
    · obtain ⟨h1, h2, h3, _⟩ := nativeRowRecs_mem eid mid i r 0 b hmem
      exact ⟨h1, h2, by omega⟩
    · obtain ⟨h1, h2, h3⟩ := ih (i + 1) b hmem
      exact ⟨h1, h2, by omega⟩

theorem nativeRowRecs_pairwise (eid mid i : Nat) (bs : List NativeButton) : ∀ j : Nat,
    (nativeRowRecs eid mid i j bs).Pairwise (fun a b => btnKey a ≠ btnKey b) := by
  induction bs with
  | nil => intro j; exact List.Pairwise.nil
  | cons x rest ih =>
    intro j
    rw [show nativeRowRecs eid mid i j (x :: rest)
      = ⟨mid, eid, i, j, x.text, pyTruthy x.data, pyTruthy x.url⟩ ::
          nativeRowRecs eid mid i (j + 1) rest from rfl, List.pairwise_cons]
    refine ⟨?_, ih (j + 1)⟩
    intro b hb hk
    obtain ⟨_, _, _, h4⟩ := nativeRowRecs_mem eid mid i rest (j + 1) b hb
    simp only [btnKey, Prod.ext_iff] at hk
    omega

theorem nativeBtnRecs_pairwise (eid mid : Nat) (bss : List (List NativeButton)) :
    ∀ i : Nat, (nativeBtnRecs eid mid i bss).Pairwise (fun a b => btnKey a ≠ btnKey b) := by
  induction bss with
  | nil => intro i; exact List.Pairwise.nil
  | cons r rows ih =>
    intro i
    show (nativeRowRecs eid mid i 0 r ++ nativeBtnRecs eid mid (i + 1) rows).Pairwise _
    rw [List.pairwise_append]
    refine ⟨nativeRowRecs_pairwise eid mid i r 0, ih (i + 1), ?_⟩
    intro a ha b hb hk
    obtain ⟨_, _, h3, _⟩ := nativeRowRecs_mem eid mid i r 0 a ha
    obtain ⟨_, _, h6⟩ := nativeBtnRecs_mem eid mid rows (i + 1) b hb
    simp only [btnKey, Prod.ext_iff] at hk
    omega

/-- The native keyboard occupies coordinate `(0, 0)` iff its first row has
a first button. -/
theorem native_zero_iff (eid mid : Nat) (bss : List (List NativeButton)) :
    (∃ q ∈ nativeBtnRecs eid mid 0 bss, btnKey q = (mid, eid, 0, 0))
      ↔ hasZeroZero bss = true := by
  cases bss with
  | nil => simp [nativeBtnRecs, hasZeroZero]
  | cons r rows =>
    cases r with
    | nil =>
      show (∃ q ∈ nativeRowRecs eid mid 0 0 [] ++ nativeBtnRecs eid mid 1 rows, _) ↔ _
      constructor
      · rintro ⟨q, hq, hk⟩
        rw [show nativeRowRecs eid mid 0 0 ([] : List NativeButton) = [] from rfl,
          List.nil_append] at hq
        obtain ⟨_, _, h3⟩ := nativeBtnRecs_mem eid mid rows 1 q hq
        simp only [btnKey, Prod.ext_iff] at hk
        omega
      · intro h
        exact absurd h (by simp [hasZeroZero])
    | cons b bs =>
      constructor
      · intro _; rfl
      · intro _
        refine ⟨⟨mid, eid, 0, 0, b.text, pyTruthy b.data, pyTruthy b.url⟩, ?_, rfl⟩
        exact List.mem_append_left _ (List.mem_cons_self _ _)

theorem anchor_fold_ignored (eid mid : Nat) (ancs : List Anchor) : ∀ t1 : List BtnRec,
    (∃ q ∈ t1, btnKey q = (mid, eid, 0, 0)) →
    (ancs.map (anchorBtn eid mid)).foldl insertOrIgnoreBtn t1 = t1 := by
  induction ancs with
  | nil => intro t1 _; rfl
  | cons a rest ih =>
    intro t1 h
    show (rest.map (anchorBtn eid mid)).foldl insertOrIgnoreBtn
      (insertOrIgnoreBtn t1 (anchorBtn eid mid a)) = t1
    rw [insertBtn_ignored (by exact h), ]
    exact ih t1 h

theorem anchor_fold_first (eid mid : Nat) (a : Anchor) (rest : List Anchor)
    (t1 : List BtnRec) (hfree : ¬∃ q ∈ t1, btnKey q = (mid, eid, 0, 0)) :
    (((a :: rest).map (anchorBtn eid mid)).foldl insertOrIgnoreBtn t1)
      = t1 ++ [anchorBtn eid mid a] := by
  show (rest.map (anchorBtn eid mid)).foldl insertOrIgnoreBtn
    (insertOrIgnoreBtn t1 (anchorBtn eid mid a)) = t1 ++ [anchorBtn eid mid a]
  rw [insertBtn_appended (by exact hfree)]
  exact anchor_fold_ignored eid mid rest (t1 ++ [anchorBtn eid mid a])
    ⟨anchorBtn eid mid a, List.mem_append_right _ (List.mem_singleton_self _), rfl⟩

/-- C8 counterexample to the claim as stated: a non-service message whose
text carries two anchors. The claim requires two ButtonRecords at row 0
with incrementing columns 0 and 1; the code attempts both inserts at the
constant coordinate `(0, 0)`, so the unique-key `INSERT OR IGNORE` stores
only the first anchor's button. -/
theorem anchor_buttons_counterexample :
    (insertMsgButtons 1 9 [] (some "<a href=\"u1\">x</a><a href=\"u2\">y</a>") false []
      = [⟨9, 1, 0, 0, "x", none, some "u1"⟩])
    ∧ ((insertMsgButtons 1 9 [] (some "<a href=\"u1\">x</a><a href=\"u2\">y</a>") false []).map
        (fun b => (b.row, b.col)) ≠ [(0, 0), (0, 1)]) := by
  exact ⟨by decide, by decide⟩

/-- C8 amended: for a truthy non-service text, native keyboard buttons
are stored with their own (enumerated) row/column coordinates; every
harvested-anchor insert is attempted at row 0, column 0 with the anchor
text as label, no payload and the href as url, so at most the first
anchor is stored, and none when a native button occupies `(0, 0)`. Stated
for a buttons table holding no prior rows of this message. -/
theorem anchor_buttons_amended (eid mid : Nat) (bss : List (List NativeButton))
    (text : String) (tbl : List BtnRec)
    (hfresh : ∀ b ∈ tbl, ¬(b.message_id = mid ∧ b.entity_id = eid)) :
    insertMsgButtons eid mid bss (some text) false tbl
      = tbl ++ nativeBtnRecs eid mid 0 bss ++
          (match extractAnchors text with
           | [] => []
           | a :: _ => if hasZeroZero bss then [] else [anchorBtn eid mid a]) := by
  have hnative : (nativeBtnRecs eid mid 0 bss).foldl insertOrIgnoreBtn tbl
      = tbl ++ nativeBtnRecs eid mid 0 bss := by
    apply foldl_insertBtn_all_new _ tbl ?_ (nativeBtnRecs_pairwise eid mid bss 0)
    intro r hr ⟨q, hq, hk⟩
    obtain ⟨h1, h2, _⟩ := nativeBtnRecs_mem eid mid bss 0 r hr
    simp only [btnKey, Prod.ext_iff] at hk
    exact hfresh q hq ⟨by omega, by omega⟩
  by_cases hemp : text.isEmpty
  · have htl : text = "" := (String.isEmpty_iff text).mp hemp
    rw [htl]
    show (nativeBtnRecs eid mid 0 bss).foldl insertOrIgnoreBtn tbl
      = tbl ++ nativeBtnRecs eid mid 0 bss ++ _
    rw [show extractAnchors "" = [] from rfl]
    rw [hnative, List.append_nil]
  · have hred : insertMsgButtons eid mid bss (some text) false tbl
        = ((extractAnchors text).map (anchorBtn eid mid)).foldl insertOrIgnoreBtn
            ((nativeBtnRecs eid mid 0 bss).foldl insertOrIgnoreBtn tbl) := by
      unfold insertMsgButtons
      rw [show pyTruthy (some text) = some text from by
        unfold pyTruthy; dsimp only; rw [if_neg hemp]]
      dsimp only
      rw [if_pos (by simp : ¬false = true)]
    rw [hred, hnative]
    cases hanc : extractAnchors text with
    | nil => rw [List.append_nil]; rfl
    | cons a rest =>
      dsimp only
      by_cases hzz : hasZeroZero bss
      · rw [if_pos hzz, List.append_nil]
        apply anchor_fold_ignored
        obtain ⟨q, hq, hk⟩ := (native_zero_iff eid mid bss).mpr hzz
        exact ⟨q, List.mem_append_right _ hq, hk⟩
      · rw [if_neg hzz]
        rw [anchor_fold_first eid mid a rest _ ?_, List.append_assoc]
        rintro ⟨q, hq, hk⟩
        rcases List.mem_append.mp hq with hq' | hq'
        · simp only [Prod.ext_iff] at hk
          exact hfresh q hq' ⟨hk.1, hk.2.1⟩
        · exact hzz ((native_zero_iff eid mid bss).mp ⟨q, hq', hk⟩)

/-- Witness for C8's amended claim: empty table, no native keyboard, two
anchors — exactly the first anchor's button is stored, at `(0, 0)`. -/
theorem anchor_buttons_amended_witness :
    (∀ b ∈ ([] : List BtnRec), ¬(b.message_id = 9 ∧ b.entity_id = 1))
    ∧ insertMsgButtons 1 9 [] (some "<a href=\"u1\">x</a><a href=\"u2\">y</a>") false []
      = [] ++ nativeBtnRecs 1 9 0 [] ++
          (match extractAnchors "<a href=\"u1\">x</a><a href=\"u2\">y</a>" with
           | [] => []
           | a :: _ => if hasZeroZero [] then [] else [anchorBtn 1 9 a]) :=
  ⟨fun b hb => absurd hb (by simp),
   anchor_buttons_amended 1 9 [] "<a href=\"u1\">x</a><a href=\"u2\">y</a>" []
     (fun b hb => absurd hb (by simp))⟩

/-! ## C4: the user_id migration backfill -/

theorem applyOne_key (t : Nat × Nat × String) (r : Rec) :
    (applyOne t r).id = r.id ∧ (applyOne t r).entity_id = r.entity_id ∧
      (applyOne t r).from_id = r.from_id := by
  unfold applyOne
  cases extract_user_id t.2.2 with
  | none => exact ⟨rfl, rfl, rfl⟩
  | some u =>
    dsimp only
    by_cases h1 : u.isEmpty
    · rw [if_pos h1]; exact ⟨rfl, rfl, rfl⟩
    · rw [if_neg h1]
      by_cases h2 : r.id == t.1 && r.entity_id == t.2.1
      · rw [if_pos h2]; exact ⟨rfl, rfl, rfl⟩
      · rw [if_neg h2]; exact ⟨rfl, rfl, rfl⟩

theorem applyOne_nomatch (t : Nat × Nat × String) (r : Rec)
    (h : ¬(r.id = t.1 ∧ r.entity_id = t.2.1)) : applyOne t r = r := by
  unfold applyOne
  cases extract_user_id t.2.2 with
  | none => rfl
  | some u =>
    dsimp only
    by_cases h1 : u.isEmpty
    · rw [if_pos h1]
    · rw [if_neg h1, if_neg (by
        intro hc
        simp only [Bool.and_eq_true, beq_iff_eq] at hc
        exact h hc)]

theorem applyUserIdUpdate_eq_map (tbl : List Rec) (t : Nat × Nat × String) :
    applyUserIdUpdate tbl t = tbl.map (applyOne t) := by
  unfold applyUserIdUpdate applyOne
  cases extract_user_id t.2.2 with
  | none => simp
  | some u =>
    by_cases h1 : u.isEmpty
    · simp [h1]
    · have h1' : u.isEmpty = false := by simpa using h1
      simp [h1']

theorem foldl_applyOne_comm (ts : List (Nat × Nat × String)) : ∀ tbl : List Rec,
    ts.foldl (fun acc t => acc.map (applyOne t)) tbl
      = tbl.map (fun r => ts.foldl (fun x t => applyOne t x) r) := by
  induction ts with
  | nil => intro tbl; simp
  | cons t rest ih =>
    intro tbl
    show rest.foldl _ (tbl.map (applyOne t)) = _
    rw [ih (tbl.map (applyOne t)), List.map_map]
    rfl

theorem foldl_applyOne_nomatch (ts : List (Nat × Nat × String)) : ∀ x : Rec,
    (∀ t ∈ ts, ¬(x.id = t.1 ∧ x.entity_id = t.2.1)) →
    ts.foldl (fun x t => applyOne t x) x = x := by
  induction ts with
  | nil => intro x _; rfl
  | cons t rest ih =>
    intro x h
    show rest.foldl _ (applyOne t x) = x
    rw [applyOne_nomatch t x (h t (List.mem_cons_self t rest))]
    exact ih x (fun t' ht' => h t' (List.mem_cons_of_mem _ ht'))

theorem foldl_applyOne_own (tbl : List Rec) (hnodup : (keysOf tbl).Nodup) : ∀ r ∈ tbl,
    (tbl.map (fun q => (q.id, q.entity_id, q.from_id))).foldl (fun x t => applyOne t x) r
      = applyOne (r.id, r.entity_id, r.from_id) r := by
  induction tbl with
  | nil => intro r hr; cases hr
  | cons q rest ih =>
    have hnd : ((q.id, q.entity_id) ∉ keysOf rest) ∧ (keysOf rest).Nodup := by
      unfold keysOf at hnodup
      rw [List.map_cons, List.nodup_cons] at hnodup
      exact hnodup
    intro r hr
    rcases List.mem_cons.mp hr with heq | hmem
    · show (rest.map _).foldl _ (applyOne (q.id, q.entity_id, q.from_id) r) = _
      rw [heq]
      apply foldl_applyOne_nomatch
      rintro t ht ⟨h1, h2⟩
      obtain ⟨s, hs, rfl⟩ := List.mem_map.mp ht
      obtain ⟨hid, hent, _⟩ := applyOne_key (q.id, q.entity_id, q.from_id) q
      apply hnd.1
      have e1 : q.id = s.id := by rw [← hid]; exact h1
      have e2 : q.entity_id = s.entity_id := by rw [← hent]; exact h2
      rw [show (q.id, q.entity_id) = (s.id, s.entity_id) from by rw [e1, e2]]
      exact List.mem_map_of_mem _ hs
    · show (rest.map _).foldl _ (applyOne (q.id, q.entity_id, q.from_id) r) = _
      rw [applyOne_nomatch _ _ (by
        rintro ⟨h1, h2⟩
        apply hnd.1
        rw [show (q.id, q.entity_id) = (r.id, r.entity_id) from by rw [h1, h2]]
        exact List.mem_map_of_mem _ hmem)]
      exact ih hnd.2 r hmem

theorem backfillUserIds_eq (tbl : List Rec) (hnodup : (keysOf tbl).Nodup) :
    backfillUserIds tbl = tbl.map (fun r => applyOne (r.id, r.entity_id, r.from_id) r) := by
  unfold backfillUserIds
  rw [List.foldl_ext applyUserIdUpdate (fun acc t => acc.map (applyOne t)) tbl
      (fun acc t _ => applyUserIdUpdate_eq_map acc t),
    foldl_applyOne_comm]
  exact List.map_congr_left (foldl_applyOne_own tbl hnodup)

theorem keysOf_map_pres (g : Rec → Rec) (tbl : List Rec)
    (hkeys : ∀ r, (g r).id = r.id ∧ (g r).entity_id = r.entity_id) :
    keysOf (tbl.map g) = keysOf tbl := by
  unfold keysOf
  rw [List.map_map]
  exact List.map_congr_left (fun r _ => by
    show ((g r).id, (g r).entity_id) = (r.id, r.entity_id)
    rw [(hkeys r).1, (hkeys r).2])

theorem backfillUserIds_map_general (g : Rec → Rec) (tbl : List Rec)
    (hkeys : ∀ r, (g r).id = r.id ∧ (g r).entity_id = r.entity_id ∧
      (g r).from_id = r.from_id)
    (huid : ∀ r, (g r).user_id = none)
    (hnodup : (keysOf tbl).Nodup) :
    backfillUserIds (tbl.map g)
      = tbl.map (fun r => { g r with user_id := extract_user_id r.from_id }) := by
  have hnodup' : (keysOf (tbl.map g)).Nodup := by
    rw [keysOf_map_pres g tbl (fun r => ⟨(hkeys r).1, (hkeys r).2.1⟩)]
    exact hnodup
  rw [backfillUserIds_eq _ hnodup', List.map_map]
  apply List.map_congr_left
  intro r _
  show applyOne ((g r).id, (g r).entity_id, (g r).from_id) (g r)
    = { g r with user_id := extract_user_id r.from_id }
  rw [(hkeys r).1, (hkeys r).2.1, (hkeys r).2.2]
  unfold applyOne
  cases hE : extract_user_id r.from_id with
  | none =>
    show g r = { g r with user_id := none }
    rw [← huid r]
  | some u =>
    have hne : ¬u.isEmpty = true := by
      intro hu
      exact extract_user_id_ne_empty r.from_id (by
        rw [hE, (String.isEmpty_iff u).mp hu])
    dsimp only
    rw [if_neg hne, if_pos (by simp [(hkeys r).1, (hkeys r).2.1])]

/-- C4: opening a pre-existing store whose messages table lacks the
`user_id` column migrates the table in a single pass over its rows: each
row's `user_id` is re-derived from its stored `from_id` via
`extract_user_id`, every other field is unchanged, and the flag columns
`is_service_message`, `is_voice_message`, `is_pinned` are likewise added
with default 0 exactly when absent. -/
theorem migration_userid_backfill (sch : MsgSchema) (tbl : List Rec)
    (hnodup : (keysOf tbl).Nodup) (hsch : sch.hasUserId = false) :
    migrateMessages sch tbl = tbl.map (fun r =>
      { r with
        is_service_message := if sch.hasService then r.is_service_message else false
        is_voice_message := if sch.hasVoice then r.is_voice_message else false
        is_pinned := if sch.hasPinned then r.is_pinned else false
        user_id := extract_user_id r.from_id }) := by
  cases hs : sch.hasService <;> cases hv : sch.hasVoice <;> cases hp : sch.hasPinned <;>
    simp only [migrateMessages, hs, hv, hp, hsch, Bool.false_eq_true, if_false, if_true,
      List.map_map] <;>
    exact backfillUserIds_map_general _ tbl (fun r => ⟨rfl, rfl, rfl⟩) (fun r => rfl) hnodup

/-- Witness for C4: a two-row table without any of the late columns; the
parseable sender reference backfills to its embedded id, the junk one to
NULL, and nothing else changes. -/
theorem migration_userid_backfill_witness :
    ((keysOf [{ sampleRec 1 with from_id := "PeerUser(user_id=12)", user_id := none },
              { sampleRec 2 with from_id := "garbage", user_id := none }]).Nodup)
    ∧ ((⟨false, false, false, false⟩ : MsgSchema).hasUserId = false)
    ∧ migrateMessages ⟨false, false, false, false⟩
        [{ sampleRec 1 with from_id := "PeerUser(user_id=12)", user_id := none },
         { sampleRec 2 with from_id := "garbage", user_id := none }]
      = [{ sampleRec 1 with from_id := "PeerUser(user_id=12)", user_id := some "12" },
         { sampleRec 2 with from_id := "garbage", user_id := none }] := by
  refine ⟨by decide, rfl, ?_⟩
  rw [migration_userid_backfill ⟨false, false, false, false⟩ _ (by decide) rfl]
  decide

/-! ## C7: per-message resolution failures are isolated -/

theorem any_key_eq_keysOf (tbl : List Rec) (i e : Nat) :
    tbl.any (fun q => q.id == i && q.entity_id == e)
      = (keysOf tbl).any (fun p => p.1 == i && p.2 == e) := by
  induction tbl with
  | nil => rfl
  | cons r rest ih =>
    show ((r.id == i && r.entity_id == e) || rest.any _)
      = ((r.id == i && r.entity_id == e) || (keysOf rest).any _)
    rw [ih]

theorem keyIn_eq_of_keysOf (tbl₁ tbl₂ : List Rec) (hk : keysOf tbl₁ = keysOf tbl₂)
    (i e : Nat) : keyIn tbl₁ i e = keyIn tbl₂ i e := by
  unfold keyIn
  rw [any_key_eq_keysOf, any_key_eq_keysOf, hk]

theorem keysOf_insert (tbl₁ tbl₂ : List Rec) (r₁ r₂ : Rec)
    (hk : keysOf tbl₁ = keysOf tbl₂) (hid : r₁.id = r₂.id)
    (he : r₁.entity_id = r₂.entity_id) :
    keysOf (insertOrIgnoreMsg tbl₁ r₁) = keysOf (insertOrIgnoreMsg tbl₂ r₂) := by
  unfold insertOrIgnoreMsg
  have hc : tbl₁.any (fun q => q.id == r₁.id && q.entity_id == r₁.entity_id)
      = tbl₂.any (fun q => q.id == r₂.id && q.entity_id == r₂.entity_id) := by
    have := keyIn_eq_of_keysOf tbl₁ tbl₂ hk r₁.id r₁.entity_id
    unfold keyIn at this
    rw [this, hid, he]
  rw [← hc]
  by_cases h : tbl₁.any (fun q => q.id == r₁.id && q.entity_id == r₁.entity_id)
  · rw [if_pos h, if_pos h]; exact hk
  · rw [if_neg h, if_neg h]
    unfold keysOf at hk ⊢
    simp only [List.map_append, hk, List.map_cons, List.map_nil, hid, he]

theorem commitMsg_keysOf (env₁ env₂ : Env) (dl₁ dl₂ : Bool) (eid : Nat)
    (st₁ st₂ : Store) (m : Msg) (hk : keysOf st₁.messages = keysOf st₂.messages) :
    keysOf (commitMsg env₁ dl₁ eid st₁ m).messages
      = keysOf (commitMsg env₂ dl₂ eid st₂ m).messages := by
  rw [commitMsg_messages, commitMsg_messages]
  exact keysOf_insert _ _ _ _ hk rfl rfl

theorem commitMsgUpd_messages_proj (env : Env) (dl : Bool) (eid : Nat)
    (st : Store) (m : Msg) :
    (commitMsgUpd env dl eid st m).messages =
      insertOrIgnoreMsg st.messages
        (normalizeCore env eid m (classifyText env m).1 (classifyText env m).2
          (mediaFieldsUpd env dl st.messages eid m)) := rfl

theorem commitMsgUpd_keysOf (env₁ env₂ : Env) (dl₁ dl₂ : Bool) (eid : Nat)
    (st₁ st₂ : Store) (m : Msg) (hk : keysOf st₁.messages = keysOf st₂.messages) :
    keysOf (commitMsgUpd env₁ dl₁ eid st₁ m).messages
      = keysOf (commitMsgUpd env₂ dl₂ eid st₂ m).messages := by
  rw [commitMsgUpd_messages_proj, commitMsgUpd_messages_proj]
  exact keysOf_insert _ _ _ _ hk rfl rfl

theorem backfill_keysOf_env (env₁ env₂ : Env) (dl₁ dl₂ : Bool) (eid : Nat)
    (msgs : List Msg) : ∀ st₁ st₂ : Store,
    keysOf st₁.messages = keysOf st₂.messages →
    keysOf (process_entity_pass env₁ dl₁ eid st₁ (msgs.map .msg)).1.messages
      = keysOf (process_entity_pass env₂ dl₂ eid st₂ (msgs.map .msg)).1.messages := by
  induction msgs with
  | nil => intro st₁ st₂ hk; exact hk
  | cons m rest ih =>
    intro st₁ st₂ hk
    exact ih (commitMsg env₁ dl₁ eid st₁ m) (commitMsg env₂ dl₂ eid st₂ m)
      (commitMsg_keysOf env₁ env₂ dl₁ dl₂ eid st₁ st₂ m hk)

theorem update_keysOf_env (env₁ env₂ : Env) (dl₁ dl₂ : Bool) (eid cursor : Nat)
    (msgs : List Msg) : ∀ st₁ st₂ : Store,
    keysOf st₁.messages = keysOf st₂.messages →
    keysOf (update_entity_pass env₁ dl₁ eid cursor st₁ (msgs.map .msg)).1.messages
        = keysOf (update_entity_pass env₂ dl₂ eid cursor st₂ (msgs.map .msg)).1.messages
      ∧ (update_entity_pass env₁ dl₁ eid cursor st₁ (msgs.map .msg)).2
        = (update_entity_pass env₂ dl₂ eid cursor st₂ (msgs.map .msg)).2 := by
  induction msgs with
  | nil => intro st₁ st₂ hk; exact ⟨hk, rfl⟩
  | cons m rest ih =>
    intro st₁ st₂ hk
    by_cases hc : m.id ≤ cursor
    · constructor
      · show keysOf (if m.id ≤ cursor then (st₁, UpdOutcome.completed) else _).1.messages = _
        rw [if_pos hc]
        show keysOf st₁.messages
          = keysOf (if m.id ≤ cursor then (st₂, UpdOutcome.completed) else _).1.messages
        rw [if_pos hc]
        exact hk
      · show (if m.id ≤ cursor then (st₁, UpdOutcome.completed) else _).2 = _
        rw [if_pos hc]
        show UpdOutcome.completed
          = (if m.id ≤ cursor then (st₂, UpdOutcome.completed) else _).2
        rw [if_pos hc]
    · have h₁ : update_entity_pass env₁ dl₁ eid cursor st₁ ((m :: rest).map .msg)
          = update_entity_pass env₁ dl₁ eid cursor (commitMsgUpd env₁ dl₁ eid st₁ m)
              (rest.map .msg) := by
        show (if m.id ≤ cursor then (st₁, UpdOutcome.completed) else _) = _
        rw [if_neg hc]
      have h₂ : update_entity_pass env₂ dl₂ eid cursor st₂ ((m :: rest).map .msg)
          = update_entity_pass env₂ dl₂ eid cursor (commitMsgUpd env₂ dl₂ eid st₂ m)
              (rest.map .msg) := by
        show (if m.id ≤ cursor then (st₂, UpdOutcome.completed) else _) = _
        rw [if_neg hc]
      rw [h₁, h₂]
      exact ih _ _ (commitMsgUpd_keysOf env₁ env₂ dl₁ dl₂ eid st₁ st₂ m hk)

theorem backfill_completes_on_pure_stream (env : Env) (dl : Bool) (eid : Nat)
    (msgs : List Msg) : ∀ st : Store,
    (process_entity_pass env dl eid st (msgs.map .msg)).2 = .completed := by
  induction msgs with
  | nil => intro st; rfl
  | cons m rest ih => intro st; exact ih (commitMsg env dl eid st m)

/-- C7: per-message resolution failures are isolated in both passes.
Whatever the external resolution environment does — every name lookup may
fail, every action payload may be missing its fields, every reaction may
be malformed (`ReactObj.badR`) — the backfill pass still completes the
whole message stream, both passes commit exactly the same message keys as
under any other environment (processing is never aborted by a
per-message failure), and the failed resolutions degrade to their
fallback values: `"User <id>"` for a failed member lookup and
`"Unknown"` for a malformed reaction. -/
theorem per_message_failures_isolated (env₁ env₂ : Env) (dl₁ dl₂ : Bool)
    (eid cursor : Nat) (st : Store) (msgs : List Msg) :
    ((process_entity_pass env₁ dl₁ eid st (msgs.map .msg)).2 = .completed)
    ∧ (keysOf (process_entity_pass env₁ dl₁ eid st (msgs.map .msg)).1.messages
        = keysOf (process_entity_pass env₂ dl₂ eid st (msgs.map .msg)).1.messages)
    ∧ ((update_entity_pass env₁ dl₁ eid cursor st (msgs.map .msg)).2
        = (update_entity_pass env₂ dl₂ eid cursor st (msgs.map .msg)).2)
    ∧ (keysOf (update_entity_pass env₁ dl₁ eid cursor st (msgs.map .msg)).1.messages
        = keysOf (update_entity_pass env₂ dl₂ eid cursor st (msgs.map .msg)).1.messages)
    ∧ (∀ uid : Nat, resolveUserName { env₁ with getEntity := fun _ => none } uid
        = "User " ++ natStr uid)
    ∧ (get_emoji_string .badR = "Unknown") :=
  ⟨backfill_completes_on_pure_stream env₁ dl₁ eid msgs st,
   backfill_keysOf_env env₁ env₂ dl₁ dl₂ eid msgs st st rfl,
   (update_keysOf_env env₁ env₂ dl₁ dl₂ eid cursor msgs st st rfl).2,
   (update_keysOf_env env₁ env₂ dl₁ dl₂ eid cursor msgs st st rfl).1,
   fun _ => rfl, rfl⟩

/-! ## C9: digest day grouping -/

theorem map_if_key_id (rest : List (String × List Rec)) (k : String) (r : Rec)
    (hout : k ∉ rest.map Prod.fst) :
    rest.map (fun p => if p.1 = k then (p.1, p.2 ++ [r]) else p) = rest := by
  have h := List.map_congr_left (l := rest)
    (f := fun p => if p.1 = k then (p.1, p.2 ++ [r]) else p) (g := fun p => p)
    (fun p hp => by
      show (if p.1 = k then (p.1, p.2 ++ [r]) else p) = p
      rw [if_neg (fun hk => hout (by rw [← hk]; exact List.mem_map_of_mem Prod.fst hp))])
  rw [h, List.map_id']

theorem addToGroups_mem (gs : List (String × List Rec)) (k : String) (r : Rec)
    (hnodup : (gs.map Prod.fst).Nodup) (hmem : k ∈ gs.map Prod.fst) :
    addToGroups gs k r
      = gs.map (fun p => if p.1 = k then (p.1, p.2 ++ [r]) else p) := by
  induction gs with
  | nil => cases hmem
  | cons q rest ih =>
    rw [List.map_cons, List.nodup_cons] at hnodup
    obtain ⟨q1, q2⟩ := q
    unfold addToGroups
    by_cases hq : q1 = k
    · rw [if_pos hq, List.map_cons]
      dsimp only
      rw [if_pos hq, map_if_key_id rest k r (by rw [← hq]; exact hnodup.1)]
    · rw [if_neg hq, List.map_cons]
      dsimp only
      rw [if_neg hq, ih hnodup.2 (by
        rcases List.mem_map.mp hmem with ⟨p, hp, hpk⟩
        rcases List.mem_cons.mp hp with heq | hp'
        · exact absurd (by rw [heq] at hpk; exact hpk) hq
        · exact List.mem_map.mpr ⟨p, hp', hpk⟩)]

theorem addToGroups_new (gs : List (String × List Rec)) (k : String) (r : Rec)
    (hout : k ∉ gs.map Prod.fst) :
    addToGroups gs k r = gs ++ [(k, [r])] := by
  induction gs with
  | nil => rfl
  | cons q rest ih =>
    obtain ⟨q1, q2⟩ := q
    unfold addToGroups
    rw [if_neg (fun hq => hout (by rw [← hq]; simp)), ih (fun hk => hout (by
      rw [List.map_cons]; exact List.mem_cons_of_mem _ hk))]
    rfl

/-- The invariant carried through the grouping fold: keys are distinct,
keys are exactly the day keys seen so far, and each group holds exactly
the processed records of its day, in processed order. -/
def GroupInv (done : List Rec) (gs : List (String × List Rec)) : Prop :=
  (gs.map Prod.fst).Nodup
  ∧ (∀ k, k ∈ gs.map Prod.fst ↔ k ∈ done.map (fun r => dayKey r.date))
  ∧ (∀ p ∈ gs, p.2 = done.filter (fun r => dayKey r.date = p.1))

theorem groupInv_step (done : List Rec) (gs : List (String × List Rec)) (r : Rec)
    (hinv : GroupInv done gs) :
    GroupInv (done ++ [r]) (addToGroups gs (dayKey r.date) r) := by
  obtain ⟨hnd, hkeys, hent⟩ := hinv
  by_cases hmem : dayKey r.date ∈ gs.map Prod.fst
  · rw [addToGroups_mem gs _ r hnd hmem]
    refine ⟨?_, ?_, ?_⟩
    · have hfst : (gs.map (fun p => if p.1 = dayKey r.date then (p.1, p.2 ++ [r]) else p)).map
          Prod.fst = gs.map Prod.fst := by
        rw [List.map_map]
        exact List.map_congr_left (fun p _ => by
          by_cases hp : p.1 = dayKey r.date
          · show Prod.fst (if p.1 = dayKey r.date then (p.1, p.2 ++ [r]) else p) = p.1
            rw [if_pos hp]
          · show Prod.fst (if p.1 = dayKey r.date then (p.1, p.2 ++ [r]) else p) = p.1
            rw [if_neg hp])
      rw [hfst]
      exact hnd
    · intro k
      have hfst : (gs.map (fun p => if p.1 = dayKey r.date then (p.1, p.2 ++ [r]) else p)).map
          Prod.fst = gs.map Prod.fst := by
        rw [List.map_map]
        exact List.map_congr_left (fun p _ => by
          by_cases hp : p.1 = dayKey r.date
          · show Prod.fst (if p.1 = dayKey r.date then (p.1, p.2 ++ [r]) else p) = p.1
            rw [if_pos hp]
          · show Prod.fst (if p.1 = dayKey r.date then (p.1, p.2 ++ [r]) else p) = p.1
            rw [if_neg hp])
      rw [hfst, List.map_append]
      constructor
      · intro hk
        exact List.mem_append_left _ ((hkeys k).mp hk)
      · intro hk
        rcases List.mem_append.mp hk with hk' | hk'
        · exact (hkeys k).mpr hk'
        · rw [List.mem_singleton.mp hk']
          exact hmem
    · intro p hp
      obtain ⟨q, hq, hpq⟩ := List.mem_map.mp hp
      by_cases hqk : q.1 = dayKey r.date
      · rw [if_pos hqk] at hpq
        rw [← hpq]
        dsimp only
        rw [hent q hq, List.filter_append, hqk]
        rw [show List.filter (fun x => dayKey x.date = dayKey r.date) [r]
          = [r] from by simp]
      · rw [if_neg hqk] at hpq
        rw [← hpq, hent q hq, List.filter_append]
        rw [show List.filter (fun x => dayKey x.date = q.1) [r] = [] from by
          simp only [List.filter_cons, List.filter_nil]
          rw [if_neg (by
            intro hc
            exact hqk (by
              have := of_decide_eq_true hc
              rw [this]))]]
        rw [List.append_nil]
  · rw [addToGroups_new gs _ r hmem]
    refine ⟨?_, ?_, ?_⟩
    · rw [List.map_append]
      rw [List.nodup_append]
      refine ⟨hnd, List.nodup_singleton _, ?_⟩
      intro k hk hk'
      rw [show (List.map Prod.fst [(dayKey r.date, [r])]) = [dayKey r.date] from rfl,
        List.mem_singleton] at hk'
      rw [hk'] at hk
      exact hmem hk
    · intro k
      rw [List.map_append, List.map_append]
      constructor
      · intro hk
        rcases List.mem_append.mp hk with hk' | hk'
        · exact List.mem_append_left _ ((hkeys k).mp hk')
        · rw [show (List.map Prod.fst [(dayKey r.date, [r])]) = [dayKey r.date] from rfl,
            List.mem_singleton] at hk'
          exact List.mem_append_right _ (by
            rw [show (List.map (fun x => dayKey x.date) [r]) = [dayKey r.date] from rfl,
              List.mem_singleton]
            exact hk')
      · intro hk
        rcases List.mem_append.mp hk with hk' | hk'
        · exact List.mem_append_left _ ((hkeys k).mpr hk')
        · rw [show (List.map (fun x => dayKey x.date) [r]) = [dayKey r.date] from rfl,
            List.mem_singleton] at hk'
          exact List.mem_append_right _ (by
            rw [show (List.map Prod.fst [(dayKey r.date, [r])]) = [dayKey r.date] from rfl,
              List.mem_singleton]
            exact hk')
    · intro p hp
      rcases List.mem_append.mp hp with hp' | hp'
      · rw [hent p hp', List.filter_append]
        rw [show List.filter (fun x => dayKey x.date = p.1) [r] = [] from by
          simp only [List.filter_cons, List.filter_nil]
          rw [if_neg (by
            intro hc
            apply hmem
            rw [of_decide_eq_true hc]
            exact List.mem_map_of_mem Prod.fst hp')]]
        rw [List.append_nil]
      · rw [List.mem_singleton.mp hp']
        dsimp only
        have hdone : done.filter (fun x => dayKey x.date = dayKey r.date) = [] := by
          rw [List.filter_eq_nil_iff]
          intro x hx hc
          apply hmem
          apply (hkeys (dayKey r.date)).mpr
          rw [← of_decide_eq_true hc]
          exact List.mem_map_of_mem _ hx
        rw [List.filter_append, hdone, List.nil_append]
        rw [show List.filter (fun x => dayKey x.date = dayKey r.date) [r]
          = [r] from by simp]

theorem groupInv_fold (msgs : List Rec) : ∀ (done : List Rec)
    (gs : List (String × List Rec)), GroupInv done gs →
    GroupInv (done ++ msgs)
      (msgs.foldl (fun gs r => addToGroups gs (dayKey r.date) r) gs) := by
  induction msgs with
  | nil => intro done gs h; simpa using h
  | cons r rest ih =>
    intro done gs h
    have := ih (done ++ [r]) (addToGroups gs (dayKey r.date) r) (groupInv_step done gs r h)
    rw [List.append_assoc] at this
    simpa using this

theorem groupByDay_inv (msgs : List Rec) : GroupInv msgs (groupByDay msgs) := by
  have := groupInv_fold msgs [] [] ⟨List.nodup_nil, by simp, by intro p hp; cases hp⟩
  simpa [groupByDay] using this

theorem append_space_inj (a : List Char) : ∀ (b u v : List Char), ' ' ∉ a → ' ' ∉ b →
    a ++ ' ' :: u = b ++ ' ' :: v → a = b ∧ u = v := by
  induction a with
  | nil =>
    intro b u v _ hb h
    cases b with
    | nil => exact ⟨rfl, by simpa using h⟩
    | cons c bs =>
      rw [List.nil_append, List.cons_append] at h
      injection h with h1 _
      exact absurd (by rw [h1]; exact List.mem_cons_self c bs) hb
  | cons c as ih =>
    intro b u v ha hb h
    cases b with
    | nil =>
      rw [List.cons_append, List.nil_append] at h
      injection h with h1 _
      exact absurd (by rw [← h1]; exact List.mem_cons_self c as) ha
    | cons c' bs =>
      rw [List.cons_append, List.cons_append] at h
      injection h with h1 h2
      obtain ⟨e1, e2⟩ := ih bs u v (fun hm => ha (List.mem_cons_of_mem c hm))
        (fun hm => hb (List.mem_cons_of_mem c' hm)) h2
      exact ⟨by rw [h1, e1], e2⟩

theorem monthNameL_no_space (mo : Nat) (h1 : 1 ≤ mo) (h2 : mo ≤ 12) :
    ' ' ∉ monthNameL mo := by
  interval_cases mo <;> decide

theorem monthNameL_inj (mo₁ mo₂ : Nat) (h1 : 1 ≤ mo₁) (h2 : mo₁ ≤ 12) (h3 : 1 ≤ mo₂)
    (h4 : mo₂ ≤ 12) (h : monthNameL mo₁ = monthNameL mo₂) : mo₁ = mo₂ := by
  interval_cases mo₁ <;> interval_cases mo₂ <;> revert h <;> decide

theorem pad2_length (d : Nat) (h : d ≤ 31) : (pad2 d).length = 2 := by
  interval_cases d <;> rfl

theorem pad2_inj_ball : ∀ d₁ < 32, ∀ d₂ < 32, pad2 d₁ = pad2 d₂ → d₁ = d₂ := by decide

/-- `strftime("%B %d, %Y")` output is injective on valid months and days:
distinct calendar days render as distinct group keys. -/
theorem formatDayChars_inj (y₁ mo₁ d₁ y₂ mo₂ d₂ : Nat)
    (hm1 : 1 ≤ mo₁) (hm2 : mo₁ ≤ 12) (hd1 : d₁ ≤ 31)
    (hm3 : 1 ≤ mo₂) (hm4 : mo₂ ≤ 12) (hd2 : d₂ ≤ 31)
    (h : formatDayChars y₁ mo₁ d₁ = formatDayChars y₂ mo₂ d₂) :
    y₁ = y₂ ∧ mo₁ = mo₂ ∧ d₁ = d₂ := by
  unfold formatDayChars at h
  obtain ⟨hmn, hrest⟩ := append_space_inj _ _ _ _ (monthNameL_no_space mo₁ hm1 hm2)
    (monthNameL_no_space mo₂ hm3 hm4) h
  have hmo := monthNameL_inj _ _ hm1 hm2 hm3 hm4 hmn
  obtain ⟨hp, ht⟩ := List.append_inj hrest
    (by rw [pad2_length d₁ hd1, pad2_length d₂ hd2])
  have hd := pad2_inj_ball d₁ (by omega) d₂ (by omega) hp
  have hy : natDigits y₁ = natDigits y₂ := by
    injection ht with _ ht'
    injection ht' with _ ht''
  exact ⟨natDigits_inj hy, hmo, hd⟩

theorem daysInMonth_le (y m : Nat) : daysInMonth y m ≤ 31 := by
  unfold daysInMonth
  split
  · split <;> omega
  · split <;> omega

/-- Inversion of a successful ISO parse: the string is nonempty, carries
the `'T'` separator, and the parsed month and day are in range. -/
theorem fromIso_props {cs : List Char} {t : Nat × Nat × Nat}
    (h : fromIsoChars cs = some t) :
    cs.isEmpty = false ∧ cs.contains 'T' = true ∧
      1 ≤ t.2.1 ∧ t.2.1 ≤ 12 ∧ t.2.2 ≤ 31 := by
  unfold fromIsoChars at h
  split at h
  · rename_i y1 y2 y3 y4 mo1 mo2 d1 d2 rest
    split at h
    · rename_i y mo d heq1 heq2 heq3
      split at h
      · rename_i hcond
        obtain rfl := Option.some.inj h
        refine ⟨rfl, ?_, ?_, ?_, ?_⟩
        · show List.contains _ 'T' = true
          simp [List.contains_cons]
        · exact hcond.1
        · exact hcond.2.1
        · exact Nat.le_trans hcond.2.2.2.1 (daysInMonth_le y mo)
      · exact absurd h (by simp)
    · exact absurd h (by simp)
  · exact absurd h (by simp)

theorem dayKey_of_parse (s : String) {t : Nat × Nat × Nat}
    (h : fromIsoChars s.toList = some t) :
    dayKey s = String.mk (formatDayChars t.1 t.2.1 t.2.2) := by
  obtain ⟨hne, hT, _⟩ := fromIso_props h
  have hse : ¬s.isEmpty = true := by
    intro hemp
    rw [(String.isEmpty_iff s).mp hemp] at hne
    exact absurd hne (by decide)
  unfold dayKey
  rw [if_pos ⟨hse, hT⟩, h]

theorem map_dayKey_eq (msgs : List Rec)
    (hparse : ∀ r ∈ msgs, (fromIsoChars r.date.toList).isSome = true) :
    msgs.map (fun r => dayKey r.date)
      = (msgs.filterMap (fun r => fromIsoChars r.date.toList)).map
          (fun t => String.mk (formatDayChars t.1 t.2.1 t.2.2)) := by
  induction msgs with
  | nil => rfl
  | cons r rest ih =>
    have hr := hparse r (List.mem_cons_self r rest)
    cases hE : fromIsoChars r.date.toList with
    | none => rw [hE] at hr; exact absurd hr (by simp)
    | some t =>
      rw [List.map_cons, List.filterMap_cons, hE, List.map_cons,
        dayKey_of_parse _ hE, ih (fun x hx => hparse x (List.mem_cons_of_mem _ hx))]

theorem map_toFinset_image (l : List (Nat × Nat × Nat))
    (f : Nat × Nat × Nat → String) :
    (l.map f).toFinset = l.toFinset.image f := by
  induction l with
  | nil => rfl
  | cons t rest ih => simp [ih]

/-- C9: digest day grouping. For rows delivered in the renderer's
`ORDER BY m.date DESC` order whose timestamps all parse and span exactly
3 distinct calendar days, the grouping produces exactly 3 day-groups;
within each group the records keep descending timestamp order; each
group's key is the calendar-day rendering of each of its records'
stored timestamps; and unparseable timestamps fall back to the raw
date-prefix group (when the `'T'` separator is present) and otherwise
to the `"Unknown Date"` bucket. -/
theorem digest_three_day_groups (msgs : List Rec)
    (hsort : msgs.Pairwise (fun a b => dateLe b.date a.date))
    (hparse : ∀ r ∈ msgs, (fromIsoChars r.date.toList).isSome = true)
    (hdays : (msgs.filterMap (fun r => fromIsoChars r.date.toList)).toFinset.card = 3) :
    ((groupByDay msgs).length = 3)
    ∧ (∀ p ∈ groupByDay msgs, p.2.Pairwise (fun a b => dateLe b.date a.date))
    ∧ (∀ p ∈ groupByDay msgs, ∀ r ∈ p.2, dayKey r.date = p.1)
    ∧ (∀ s : String, s.toList.contains 'T' = true → fromIsoChars s.toList = none →
        dayKey s = String.mk (s.toList.takeWhile (· ≠ 'T')))
    ∧ (∀ s : String, ¬(¬s.isEmpty = true ∧ s.toList.contains 'T' = true) →
        dayKey s = "Unknown Date") := by
  obtain ⟨hnd, hkeys, hent⟩ := groupByDay_inv msgs
  refine ⟨?_, ?_, ?_, ?_, ?_⟩
  · have hinj : Set.InjOn (fun t : Nat × Nat × Nat => String.mk (formatDayChars t.1 t.2.1 t.2.2))
        ↑((msgs.filterMap (fun r => fromIsoChars r.date.toList)).toFinset) := by
      intro a ha b hb hfeq
      rw [Finset.mem_coe, List.mem_toFinset] at ha hb
      obtain ⟨ra, _, hra⟩ := List.mem_filterMap.mp ha
      obtain ⟨rb, _, hrb⟩ := List.mem_filterMap.mp hb
      obtain ⟨_, _, hma1, hma2, hda⟩ := fromIso_props hra
      obtain ⟨_, _, hmb1, hmb2, hdb⟩ := fromIso_props hrb
      have hchars : formatDayChars a.1 a.2.1 a.2.2 = formatDayChars b.1 b.2.1 b.2.2 :=
        congrArg String.data hfeq
      obtain ⟨e1, e2, e3⟩ := formatDayChars_inj _ _ _ _ _ _ hma1 hma2 hda hmb1 hmb2 hdb hchars
      exact Prod.ext e1 (Prod.ext e2 e3)
    have hset : ((groupByDay msgs).map Prod.fst).toFinset
        = (msgs.map (fun r => dayKey r.date)).toFinset := by
      apply Finset.ext
      intro k
      rw [List.mem_toFinset, List.mem_toFinset]
      exact hkeys k
    have hlen : (groupByDay msgs).length = ((groupByDay msgs).map Prod.fst).length :=
      (List.length_map _ _).symm
    rw [hlen, ← List.toFinset_card_of_nodup hnd, hset, map_dayKey_eq msgs hparse,
      map_toFinset_image, Finset.card_image_of_injOn hinj, hdays]
  · intro p hp
    rw [hent p hp]
    exact List.Pairwise.sublist (List.filter_sublist msgs) hsort
  · intro p hp r hr
    rw [hent p hp] at hr
    exact of_decide_eq_true (List.mem_filter.mp hr).2
  · intro s hT hparse0
    have hse : ¬s.isEmpty = true := by
      intro hemp
      rw [(String.isEmpty_iff s).mp hemp] at hT
      exact absurd hT (by decide)
    unfold dayKey
    rw [if_pos ⟨hse, hT⟩, hparse0]
  · intro s hcond
    unfold dayKey
    rw [if_neg hcond]

/-- Witness for C9: four rows over the three calendar days
Feb 3 / Feb 2 / Jan 31 of 2026, newest first — exactly 3 groups. -/
theorem digest_three_day_groups_witness :
    (([{ sampleRec 4 with date := "2026-02-03T10:00:00+00:00" },
       { sampleRec 3 with date := "2026-02-03T09:00:00+00:00" },
       { sampleRec 2 with date := "2026-02-02T12:00:00+00:00" },
       { sampleRec 1 with date := "2026-01-31T08:00:00+00:00" }].Pairwise
        (fun a b : Rec => dateLe b.date a.date))
    ∧ (∀ r ∈ [{ sampleRec 4 with date := "2026-02-03T10:00:00+00:00" },
       { sampleRec 3 with date := "2026-02-03T09:00:00+00:00" },
       { sampleRec 2 with date := "2026-02-02T12:00:00+00:00" },
       { sampleRec 1 with date := "2026-01-31T08:00:00+00:00" }],
        (fromIsoChars r.date.toList).isSome = true)
    ∧ (([{ sampleRec 4 with date := "2026-02-03T10:00:00+00:00" },
       { sampleRec 3 with date := "2026-02-03T09:00:00+00:00" },
       { sampleRec 2 with date := "2026-02-02T12:00:00+00:00" },
       { sampleRec 1 with date := "2026-01-31T08:00:00+00:00" }].filterMap
        (fun r => fromIsoChars r.date.toList)).toFinset.card = 3))
    ∧ (groupByDay [{ sampleRec 4 with date := "2026-02-03T10:00:00+00:00" },
       { sampleRec 3 with date := "2026-02-03T09:00:00+00:00" },
       { sampleRec 2 with date := "2026-02-02T12:00:00+00:00" },
       { sampleRec 1 with date := "2026-01-31T08:00:00+00:00" }]).length = 3 :=
  ⟨⟨by decide, by decide, by decide⟩,
   (digest_three_day_groups _ (by decide) (by decide) (by decide)).1⟩

/-! ## C6: the rate-limit signal ends the pass instead of resuming it -/

/-- C6 (against the claim "suspends for exactly the signaled duration and
then resumes consuming the stream from the same point"): on the stream
`[message 2, FloodWait 5s, message 1]` the backfill pass commits message
2, sleeps the signaled 5 seconds, and then terminates — message 1 after
the signal is never committed, though it is never escalated as an error
either. In the update pass the generic `except Exception` catches the
same signal without even sleeping. -/
theorem floodwait_ends_pass_without_resuming :
    ((process_entity_pass env0 false 1 emptyStore
        [.msg (plainMsg 2), .floodWait 5, .msg (plainMsg 1)]).2 = .sleptThenStopped 5)
    ∧ ((process_entity_pass env0 false 1 emptyStore
        [.msg (plainMsg 2), .floodWait 5, .msg (plainMsg 1)]).1.messages.map Rec.id = [2])
    ∧ ((update_entity_pass env0 false 1 0 emptyStore
        [.msg (plainMsg 2), .floodWait 5, .msg (plainMsg 1)]).2 = .errorCaught)
    ∧ ((update_entity_pass env0 false 1 0 emptyStore
        [.msg (plainMsg 2), .floodWait 5, .msg (plainMsg 1)]).1.messages.map Rec.id = [2]) := by
  refine ⟨rfl, ?_, rfl, ?_⟩ <;> rfl

end TgBackup
